import Mathlib

/-!
Verification of the neuroscope PyTorch-to-graph converters.

The repository contains four conversion code paths:
  * `src/src/python/pytorch_converter.py` — descriptor-driven reconstruction
    (namespace `SrcPy` below), together with the pydantic models of
    `src/src/python/models.py`;
  * `src/python_service/main.py` — a second descriptor-driven loop
    (namespace `PySvc`);
  * `src/python_service/pytorch_converter.py` — live-model traversal
    (namespace `PySvcLive`);
  * `src/src/lib/bridge/pytorch_service.py` — a second live-model traversal
    (namespace `Bridge`).

Python dictionaries are embedded as association lists, float arithmetic as
exact rational arithmetic (`ℚ`), and `np.std`'s square root symbolically
(a `Value.vsqrt q` denotes the real number `√q`; the radicand is kept exact).
Stateful accumulation (Python lists mutated in closures, `nonlocal` counters)
is embedded as explicit state passing.
-/

namespace Neuroscope

/-- A Python value as it occurs in the descriptor dictionaries, layer
attributes and node/connection property mappings of this code base.
Floats are embedded as exact rationals; `vsqrt q` is the exact value of a
float produced as a square root (`np.std` results), denoting `√q`. -/
inductive Value where
  | vstr (s : String)
  | vint (n : Int)
  | vrat (q : ℚ)
  | vsqrt (q : ℚ)
  | vbool (b : Bool)
  | vnatList (l : List Nat)
  | vtensor (data : List ℚ) (shape : List Nat)
  | vnone
  deriving DecidableEq, Repr

/-- A Python dict with string keys, embedded as an association list
(first binding wins, matching dict semantics for the unique-key dicts
this code base builds). -/
abbrev Dict := List (String × Value)

/-- `d[k]` as an `Option`: `some v` when the key is present. -/
def dfind (d : Dict) (k : String) : Option Value :=
  (d.find? (fun kv => kv.1 = k)).map (·.2)

/-- `d[k]`, raising `KeyError` when absent (Python subscript access). -/
def dget (d : Dict) (k : String) : Except String Value :=
  match dfind d k with
  | some v => .ok v
  | none => .error ("KeyError: " ++ k)

/-- `d.get(k, default)` (never raises). -/
def dgetD (d : Dict) (k : String) (v : Value) : Value :=
  (dfind d k).getD v

/-- Extract an integer, embedding the TypeError a torch constructor raises
when handed a non-integral argument. -/
def Value.toIntE : Value → Except String Int
  | .vint n => .ok n
  | _ => .error "TypeError: an integer is required"

/-- Extract a natural number (layer sizes are non-negative in every input
this service accepts; torch rejects negative sizes at construction). -/
def Value.toNatE : Value → Except String Nat
  | .vint n => if n < 0 then .error "ValueError: negative dimension" else .ok n.toNat
  | _ => .error "TypeError: an integer is required"

/-- Extract a bool (for flags such as `bidirectional`). -/
def Value.toBoolE : Value → Except String Bool
  | .vbool b => .ok b
  | _ => .error "TypeError: a bool is required"

/-- Extract a string (pydantic `str` field validation). -/
def Value.toStrE : Value → Except String String
  | .vstr s => .ok s
  | _ => .error "ValidationError: str type expected"

/-! ### Decimal rendering of naturals: Python's `str(n)` / f-string `{n}` -/

/-- The decimal digit character for `d < 10`. -/
def digitChar (d : Nat) : Char :=
  match d with
  | 0 => '0' | 1 => '1' | 2 => '2' | 3 => '3' | 4 => '4'
  | 5 => '5' | 6 => '6' | 7 => '7' | 8 => '8' | _ => '9'

/-- Most-significant-first decimal digits of `n`, with `fuel` bounding the
recursion depth (any `fuel ≥ n` is enough). -/
def toDecAux : Nat → Nat → List Char
  | 0, _ => []
  | _ + 1, 0 => []
  | fuel + 1, n => toDecAux fuel (n / 10) ++ [digitChar (n % 10)]

/-- Python's `str` on a non-negative integer: decimal notation. -/
def pyStr (n : Nat) : String :=
  if n = 0 then "0" else ⟨toDecAux n n⟩

/-- Numeric value of a decimal digit character. -/
def charVal (c : Char) : Nat := c.toNat - 48

/-- Parse most-significant-first decimal digits back to a natural. -/
def decVal (l : List Char) : Nat :=
  l.foldl (fun acc c => acc * 10 + charVal c) 0

theorem charVal_digitChar (d : Nat) (hd : d < 10) : charVal (digitChar d) = d := by
  interval_cases d <;> rfl

theorem decVal_append (l : List Char) (c : Char) :
    decVal (l ++ [c]) = decVal l * 10 + charVal c := by
  simp [decVal, List.foldl_append]

theorem decVal_toDecAux (fuel n : Nat) (h : n ≤ fuel) :
    decVal (toDecAux fuel n) = n := by
  induction fuel generalizing n with
  | zero =>
    have hn : n = 0 := by omega
    subst hn; rfl
  | succ f ih =>
    match n with
    | 0 => rfl
    | m + 1 =>
      have step : toDecAux (f + 1) (m + 1)
          = toDecAux f ((m + 1) / 10) ++ [digitChar ((m + 1) % 10)] := rfl
      rw [step, decVal_append, ih ((m + 1) / 10) (by omega),
        charVal_digitChar _ (Nat.mod_lt _ (by omega))]
      omega

/-- Round trip: parsing the decimal rendering of `n` recovers `n`. -/
theorem decVal_pyStr (n : Nat) : decVal (pyStr n).data = n := by
  by_cases h : n = 0
  · subst h; rfl
  · simpa [pyStr, h] using decVal_toDecAux n n le_rfl

/-- `str` is injective on naturals: distinct counters render to distinct ids. -/
theorem pyStr_injective : Function.Injective pyStr := by
  intro a b hab
  have := decVal_pyStr a
  rw [hab, decVal_pyStr] at this
  exact this.symm

/-! ### Tensors and numpy / torch aggregate operations -/

/-- A weight tensor: flattened data plus its shape.  (The conversions only
flatten-aggregate, so row-major flattened data loses nothing.) -/
structure Tensor where
  data : List ℚ
  shape : List Nat
  deriving DecidableEq, Repr

/-- `np.abs` / `torch.abs` (elementwise). -/
def npAbs (l : List ℚ) : List ℚ := l.map (fun x => |x|)

/-- `np.max` on a flattened array.  numpy raises on an empty array; the
`0` result on `[]` is a modelling artifact, and every theorem touching it
carries a non-emptiness hypothesis. -/
def npMax : List ℚ → ℚ
  | [] => 0
  | x :: xs => xs.foldl max x

/-- `np.min` (same convention as `npMax`). -/
def npMin : List ℚ → ℚ
  | [] => 0
  | x :: xs => xs.foldl min x

/-- `np.mean` / `torch.mean` on a flattened array (sum divided by count;
`ℚ` division by zero yields `0` on the empty array, where numpy yields
`nan` — again guarded by non-emptiness hypotheses). -/
def npMean (l : List ℚ) : ℚ := l.sum / l.length

/-- The radicand of `np.std`: the population variance (mean of squared
deviations from the mean, dividing by `n` — numpy's default `ddof=0`).
`np.std l` itself denotes the real `√(npVar l)`, kept symbolic as
`Value.vsqrt (npVar l)`. -/
def npVar (l : List ℚ) : ℚ := npMean (l.map (fun x => (x - npMean l) ^ 2))

theorem foldl_max_mem (xs : List ℚ) (x : ℚ) :
    xs.foldl max x = x ∨ xs.foldl max x ∈ xs := by
  induction xs generalizing x with
  | nil => exact .inl rfl
  | cons y ys ih =>
    simp only [List.foldl_cons]
    rcases ih (max x y) with h | h
    · rcases max_choice x y with hm | hm
      · exact .inl (by rw [h, hm])
      · exact .inr (by rw [h, hm]; exact List.mem_cons_self _ _)
    · exact .inr (List.mem_cons_of_mem _ h)

theorem self_le_foldl_max (xs : List ℚ) (x : ℚ) : x ≤ xs.foldl max x := by
  induction xs generalizing x with
  | nil => exact le_rfl
  | cons y ys ih => exact le_trans (le_max_left x y) (ih (max x y))

theorem le_foldl_max (xs : List ℚ) (x : ℚ) : ∀ y ∈ xs, y ≤ xs.foldl max x := by
  induction xs generalizing x with
  | nil => intro y hy; cases hy
  | cons z zs ih =>
    intro y hy
    rcases List.mem_cons.1 hy with rfl | hy
    · exact le_trans (le_max_right x y) (self_le_foldl_max zs (max x y))
    · exact ih (max x z) y hy

theorem npMax_mem : ∀ (l : List ℚ), l ≠ [] → npMax l ∈ l
  | [], h => absurd rfl h
  | x :: xs, _ => by simpa [npMax] using foldl_max_mem xs x

theorem le_npMax : ∀ (l : List ℚ), ∀ y ∈ l, y ≤ npMax l
  | [] => by intro y hy; cases hy
  | x :: xs => by
    intro y hy
    rcases List.mem_cons.1 hy with rfl | hy
    · simpa [npMax] using self_le_foldl_max xs y
    · simpa [npMax] using le_foldl_max xs x y hy

theorem foldl_min_mem (xs : List ℚ) (x : ℚ) :
    xs.foldl min x = x ∨ xs.foldl min x ∈ xs := by
  induction xs generalizing x with
  | nil => exact .inl rfl
  | cons y ys ih =>
    simp only [List.foldl_cons]
    rcases ih (min x y) with h | h
    · rcases min_choice x y with hm | hm
      · exact .inl (by rw [h, hm])
      · exact .inr (by rw [h, hm]; exact List.mem_cons_self _ _)
    · exact .inr (List.mem_cons_of_mem _ h)

theorem foldl_min_le_self (xs : List ℚ) (x : ℚ) : xs.foldl min x ≤ x := by
  induction xs generalizing x with
  | nil => exact le_rfl
  | cons y ys ih => exact le_trans (ih (min x y)) (min_le_left x y)

theorem foldl_min_le (xs : List ℚ) (x : ℚ) : ∀ y ∈ xs, xs.foldl min x ≤ y := by
  induction xs generalizing x with
  | nil => intro y hy; cases hy
  | cons z zs ih =>
    intro y hy
    rcases List.mem_cons.1 hy with rfl | hy
    · exact le_trans (foldl_min_le_self zs (min x y)) (min_le_right x y)
    · exact ih (min x z) y hy

theorem npMin_mem : ∀ (l : List ℚ), l ≠ [] → npMin l ∈ l
  | [], h => absurd rfl h
  | x :: xs, _ => by simpa [npMin] using foldl_min_mem xs x

theorem npMin_le : ∀ (l : List ℚ), ∀ y ∈ l, npMin l ≤ y
  | [] => by intro y hy; cases hy
  | x :: xs => by
    intro y hy
    rcases List.mem_cons.1 hy with rfl | hy
    · simpa [npMin] using foldl_min_le_self xs y
    · simpa [npMin] using foldl_min_le xs x y hy

/-! ### PyTorch modules

A live `torch.nn.Module` as observed by the converters: its class name,
its Python attributes (an association list; `"bias"` may hold a tensor, a
bool flag for recurrent layers, or `vnone`), its registered parameters
(`parameters()` recurses into children), an optional `weight` attribute,
the number of registered forward hooks, a stored `output` attribute, and
its named children in registration order.  The mutual list type keeps all
recursion structural (kernel-reducible). -/

/-- One entry of `module.parameters()`: element count and `requires_grad`. -/
structure PParam where
  numel : Nat
  requiresGrad : Bool
  deriving DecidableEq, Repr

mutual
inductive PTModule where
  | mk (cls : String) (attrs : Dict) (params : List PParam)
       (weight : Option Tensor) (hooks : Nat) (output : Option Tensor)
       (children : PTChildren)
inductive PTChildren where
  | nil
  | cons (name : String) (m : PTModule) (rest : PTChildren)
end

def PTModule.cls : PTModule → String
  | .mk c _ _ _ _ _ _ => c

def PTModule.attrs : PTModule → Dict
  | .mk _ a _ _ _ _ _ => a

def PTModule.params : PTModule → List PParam
  | .mk _ _ p _ _ _ _ => p

def PTModule.weight : PTModule → Option Tensor
  | .mk _ _ _ w _ _ _ => w

def PTModule.hooks : PTModule → Nat
  | .mk _ _ _ _ h _ _ => h

def PTModule.output : PTModule → Option Tensor
  | .mk _ _ _ _ _ o _ => o

def PTModule.children : PTModule → PTChildren
  | .mk _ _ _ _ _ _ ch => ch

def PTChildren.isNil : PTChildren → Bool
  | .nil => true
  | .cons _ _ _ => false

/-- `len(list(module.children()))`. -/
def PTChildren.length : PTChildren → Nat
  | .nil => 0
  | .cons _ _ rest => rest.length + 1

/-- `getattr(module, k)`, defaulting to `vnone`.  (The genuine torch layer
instances this service traverses always carry the attributes their class's
branch reads, so the default is never observed on real inputs.) -/
def PTModule.attr (m : PTModule) (k : String) : Value :=
  dgetD m.attrs k .vnone

/-- `hasattr(layer, "bias") and layer.bias is not None`. -/
def PTModule.hasBias (m : PTModule) : Bool :=
  match dfind m.attrs "bias" with
  | some v => v != .vnone
  | none => false

/-- Sum of `p.numel()` over `module.parameters()` with `requires_grad`
(torch's `parameters()` yields the parameters of all descendants too). -/
def PTModule.trainableParams : PTModule → Nat
  | .mk _ _ ps _ _ _ ch =>
      (((ps.filter (·.requiresGrad)).map (·.numel)).sum) + trainableParamsL ch
where
  trainableParamsL : PTChildren → Nat
    | .nil => 0
    | .cons _ m rest => m.trainableParams + trainableParamsL rest

/-! ### Output schema: `models.py` (both copies) -/

/-- `NetworkNode` of `models.py`: id, layer-type tag, property mapping. -/
structure NetworkNode where
  id : String
  type : String
  properties : Dict
  deriving DecidableEq, Repr

/-- `NetworkConnection` of `models.py`. -/
structure NetworkConnection where
  source : String
  target : String
  weight : ℚ
  properties : Dict
  deriving DecidableEq, Repr

/-- `NeuroscopeNetwork` of `models.py`. -/
structure NeuroscopeNetwork where
  type : String
  nodes : List NetworkNode
  connections : List NetworkConnection
  deriving DecidableEq, Repr

/-- The pydantic pattern `"^(ANN|SNN|Connectome)$"` on
`NeuroscopeNetwork.type` in `src/src/python/models.py`. -/
def srcTypePattern (t : String) : Bool :=
  t = "ANN" || t = "SNN" || t = "Connectome"

/-- Constructing a `NeuroscopeNetwork` through the `src/src/python`
pydantic model: validation rejects a type tag outside the pattern. -/
def mkSrcNetwork (t : String) (nodes : List NetworkNode)
    (conns : List NetworkConnection) : Except String NeuroscopeNetwork :=
  if srcTypePattern t then .ok ⟨t, nodes, conns⟩
  else .error "ValidationError: type does not match pattern"

/-- `.detach()`: the returned tensor no longer requires grad; the
conversion never reads a grad flag, so values and shape are unchanged. -/
def Tensor.detach (t : Tensor) : Tensor := t

namespace PySvcLive

/-! ### `src/python_service/pytorch_converter.py` — live-model traversal -/

/-- `get_layer_properties` (lines 8–65): common fields plus an
isinstance-dispatched block of kind-specific fields. -/
def getLayerProperties (layer : PTModule) : Dict :=
  let properties : Dict := [
    ("type", .vstr layer.cls),
    ("trainable_parameters", .vint layer.trainableParams),
    ("has_bias", .vbool layer.hasBias)]
  if layer.cls = "Linear" then
    properties ++ [
      ("in_features", layer.attr "in_features"),
      ("out_features", layer.attr "out_features")]
  else if layer.cls = "Conv2d" then
    properties ++ [
      ("in_channels", layer.attr "in_channels"),
      ("out_channels", layer.attr "out_channels"),
      ("kernel_size", layer.attr "kernel_size"),
      ("stride", layer.attr "stride"),
      ("padding", layer.attr "padding")]
  else if layer.cls = "MaxPool2d" ∨ layer.cls = "AvgPool2d" then
    properties ++ [
      ("kernel_size", layer.attr "kernel_size"),
      ("stride", layer.attr "stride"),
      ("padding", layer.attr "padding")]
  else if layer.cls = "ReLU" ∨ layer.cls = "LeakyReLU" then
    properties ++ [("inplace", layer.attr "inplace")] ++
      (if layer.cls = "LeakyReLU" then
        [("negative_slope", layer.attr "negative_slope")] else [])
  else if layer.cls = "Dropout" then
    properties ++ [("p", layer.attr "p"), ("inplace", layer.attr "inplace")]
  else if layer.cls = "BatchNorm2d" then
    properties ++ [
      ("num_features", layer.attr "num_features"),
      ("eps", layer.attr "eps"),
      ("momentum", layer.attr "momentum"),
      ("affine", layer.attr "affine")]
  else
    properties

/-- `register_activation_hooks` (lines 91–98): walk `model.modules()` and
register the output-capturing forward hook on every leaf module. -/
def registerActivationHooks : PTModule → PTModule
  | .mk c a p w h o ch =>
    if ch.isNil then .mk c a p w (h + 1) o ch
    else .mk c a p w h o (registerHooksChildren ch)
where
  registerHooksChildren : PTChildren → PTChildren
    | .nil => .nil
    | .cons n m rest => .cons n (registerActivationHooks m) (registerHooksChildren rest)

/-- A forward run of the model on some input: `f` assigns to each module
(addressed by its name path from the root) the output tensor its `forward`
produced.  Each registered hook fires and stores the detached output as
the module's `output` attribute. -/
def forwardRun (f : List String → Tensor) (path : List String) :
    PTModule → PTModule
  | .mk c a p w h o ch =>
    .mk c a p w h (if h > 0 then some (Tensor.detach (f path)) else o)
      (forwardRunChildren f path ch)
where
  forwardRunChildren (f : List String → Tensor) (path : List String) :
      PTChildren → PTChildren
    | .nil => .nil
    | .cons n m rest =>
        .cons n (forwardRun f (path ++ [n]) m) (forwardRunChildren f path rest)

/-- The accumulator threaded through `process_layer` (`nodes`,
`connections`, and the `nonlocal node_id_counter`). -/
structure LiveState where
  nodes : List NetworkNode
  connections : List NetworkConnection
  counter : Nat
  deriving DecidableEq, Repr

/-- The connection `process_layer` appends for a layer with a parent and a
`weight` attribute (lines 123–142): scalar weight `np.mean(np.abs(w))`,
statistics `max`/`min` of absolute values, population std, shape. -/
def liveConn (parentId layerId : String) (w : Tensor) : NetworkConnection :=
  { source := parentId
    target := layerId
    weight := npMean (npAbs w.data)
    properties := [
      ("max_weight", .vrat (npMax (npAbs w.data))),
      ("min_weight", .vrat (npMin (npAbs w.data))),
      ("std_weight", .vsqrt (npVar w.data)),
      ("shape", .vnatList w.shape)] }

/-- The message of the `ValueError` numpy raises for `np.max` over an
array with zero elements. -/
def zeroSizeMsg : String :=
  "zero-size array to reduction operation maximum which has no identity"

mutual
/-- `process_layer` (lines 109–146): assign the next id, emit a node for
this module, and when the module has a parent and carries a `weight`
attribute compute the edge statistics — `np.mean` over an empty array
only warns (`nan`), but the following `np.max` raises on a zero-size
array, aborting the whole conversion; otherwise emit the weighted
connection and recurse into the named children with this module as
parent. -/
def processLayer (st : LiveState) (layer : PTModule) (parentId : Option String) :
    Except String LiveState :=
  match layer with
  | .mk c _ _ w _ _ ch =>
    let layerId := "layer_" ++ pyStr st.counter
    let nodes1 := st.nodes ++ [⟨layerId, c, getLayerProperties layer⟩]
    match parentId, w with
    | some pid, some wt =>
      if wt.data.isEmpty then .error zeroSizeMsg
      else
        processChildren
          ⟨nodes1, st.connections ++ [liveConn pid layerId wt], st.counter + 1⟩
          ch layerId
    | _, _ =>
      processChildren ⟨nodes1, st.connections, st.counter + 1⟩ ch layerId

/-- The `for name, child in layer.named_children()` loop of
`process_layer`; an exception raised on a child propagates. -/
def processChildren (st : LiveState) (cs : PTChildren) (parentId : String) :
    Except String LiveState :=
  match cs with
  | .nil => .ok st
  | .cons _ m rest => do
    let st2 ← processLayer st m (some parentId)
    processChildren st2 rest parentId
end

/-- `convert_pytorch_model` (lines 100–155): register activation hooks on
the model — a mutation that persists on the caller's object whether or
not the traversal then raises, made explicit here by returning the
mutated model alongside the fallible conversion result.  The
`python_service` schema does not constrain the type tag. -/
def convertPytorchModel (model : PTModule) :
    Except String NeuroscopeNetwork × PTModule :=
  let model' := registerActivationHooks model
  (match processLayer ⟨[], [], 0⟩ model' none with
   | .error e => .error e
   | .ok st => .ok ⟨"ANN", st.nodes, st.connections⟩,
   model')

end PySvcLive

namespace Bridge

/-! ### `src/src/lib/bridge/pytorch_service.py` — container traversal -/

/-- `isinstance(child, (nn.Sequential, nn.ModuleList, nn.ModuleDict))`. -/
def isSeqContainer (m : PTModule) : Bool :=
  m.cls = "Sequential" || m.cls = "ModuleList" || m.cls = "ModuleDict"

/-- `getattr(layer, k)` when present, else a default value. -/
def attrOr (m : PTModule) (k : String) (v : Value) : Value :=
  dgetD m.attrs k v

/-- `extract_layer_info` (lines 22–127): the common `training` flag plus an
isinstance-dispatched block of kind-specific fields. -/
def extractLayerInfo (layer : PTModule) : Dict :=
  let info : Dict :=
    match dfind layer.attrs "training" with
    | some v => [("training", v)]
    | none => []
  if layer.cls = "Conv1d" ∨ layer.cls = "Conv2d" ∨ layer.cls = "Conv3d" then
    info ++ [
      ("in_channels", layer.attr "in_channels"),
      ("out_channels", layer.attr "out_channels"),
      ("kernel_size", layer.attr "kernel_size"),
      ("stride", layer.attr "stride"),
      ("padding", layer.attr "padding"),
      ("dilation", layer.attr "dilation"),
      ("groups", layer.attr "groups"),
      ("bias", .vbool layer.hasBias)]
  else if layer.cls = "BatchNorm1d" ∨ layer.cls = "BatchNorm2d" ∨ layer.cls = "BatchNorm3d" then
    info ++ [
      ("num_features", layer.attr "num_features"),
      ("eps", layer.attr "eps"),
      ("momentum", layer.attr "momentum"),
      ("affine", layer.attr "affine"),
      ("track_running_stats", layer.attr "track_running_stats")]
  else if layer.cls = "LayerNorm" then
    info ++ [
      ("normalized_shape", layer.attr "normalized_shape"),
      ("eps", layer.attr "eps"),
      ("elementwise_affine", layer.attr "elementwise_affine")]
  else if layer.cls = "MaxPool1d" ∨ layer.cls = "MaxPool2d" ∨ layer.cls = "MaxPool3d"
      ∨ layer.cls = "AvgPool1d" ∨ layer.cls = "AvgPool2d" ∨ layer.cls = "AvgPool3d" then
    info ++ [
      ("kernel_size", layer.attr "kernel_size"),
      ("stride", layer.attr "stride"),
      ("padding", layer.attr "padding")]
  else if layer.cls = "AdaptiveAvgPool1d" ∨ layer.cls = "AdaptiveAvgPool2d"
      ∨ layer.cls = "AdaptiveAvgPool3d" then
    info ++ [("output_size", layer.attr "output_size")]
  else if layer.cls = "RNN" ∨ layer.cls = "LSTM" ∨ layer.cls = "GRU" then
    info ++ [
      ("input_size", layer.attr "input_size"),
      ("hidden_size", layer.attr "hidden_size"),
      ("num_layers", layer.attr "num_layers"),
      ("bias", layer.attr "bias"),
      ("batch_first", layer.attr "batch_first"),
      ("dropout", layer.attr "dropout"),
      ("bidirectional", layer.attr "bidirectional")]
  else if layer.cls = "Linear" then
    info ++ [
      ("in_features", layer.attr "in_features"),
      ("out_features", layer.attr "out_features"),
      ("bias", .vbool layer.hasBias)]
  else if layer.cls = "Dropout" ∨ layer.cls = "Dropout2d" ∨ layer.cls = "Dropout3d" then
    info ++ [
      ("p", layer.attr "p"),
      ("inplace", attrOr layer "inplace" (.vbool false))]
  else if layer.cls = "ReLU" ∨ layer.cls = "LeakyReLU" ∨ layer.cls = "PReLU"
      ∨ layer.cls = "RReLU" ∨ layer.cls = "SELU" ∨ layer.cls = "CELU"
      ∨ layer.cls = "GELU" then
    info ++ [("inplace", attrOr layer "inplace" (.vbool false))] ++
      (if layer.cls = "LeakyReLU" then [("negative_slope", layer.attr "negative_slope")]
       else [])
  else if layer.cls = "Embedding" then
    info ++ [
      ("num_embeddings", layer.attr "num_embeddings"),
      ("embedding_dim", layer.attr "embedding_dim"),
      ("padding_idx", layer.attr "padding_idx"),
      ("max_norm", layer.attr "max_norm"),
      ("norm_type", layer.attr "norm_type"),
      ("scale_grad_by_freq", layer.attr "scale_grad_by_freq"),
      ("sparse", layer.attr "sparse")]
  else if layer.cls = "TransformerEncoderLayer" ∨ layer.cls = "TransformerDecoderLayer" then
    info ++ [
      ("d_model", layer.attr "d_model"),
      ("nhead", layer.attr "nhead"),
      ("dim_feedforward", layer.attr "dim_feedforward"),
      ("dropout", layer.attr "dropout"),
      ("activation", layer.attr "activation"),
      ("layer_norm_eps", layer.attr "layer_norm_eps"),
      ("batch_first", layer.attr "batch_first"),
      ("norm_first", layer.attr "norm_first")]
  else
    info

/-- A node dict of `analyze_model`: `{'id': str(node_id), 'type': ...,
'name': ..., 'properties': ...}`. -/
structure BridgeNode where
  id : String
  type : String
  name : String
  properties : Dict
  deriving DecidableEq, Repr

/-- A connection dict of `analyze_model` (weight is always `1.0`). -/
structure BridgeConn where
  source : String
  target : String
  weight : ℚ
  deriving DecidableEq, Repr

/-- The mutable lists and the `nonlocal node_count` of `analyze_model`. -/
structure BridgeState where
  nodes : List BridgeNode
  connections : List BridgeConn
  nodeCount : Nat
  deriving DecidableEq, Repr

/-- `add_node` (lines 135–150): assign `node_count` as the id (rendered
with `str`), bump the counter, append the node dict. -/
def addNode (st : BridgeState) (layer : PTModule) (name : String) :
    BridgeState × Nat :=
  let nodeId := st.nodeCount
  ({ nodes := st.nodes ++ [⟨pyStr nodeId, layer.cls, name, extractLayerInfo layer⟩]
     connections := st.connections
     nodeCount := nodeId + 1 }, nodeId)

/-- The `for i in range(len(ids) - 1)` chaining loops (lines 177–182 and
186–191): one `1.0`-weighted connection per consecutive pair. -/
def chainConnections (ids : List Nat) : List BridgeConn :=
  List.zipWith (fun a b => ⟨pyStr a, pyStr b, 1⟩) ids ids.tail

mutual
/-- `process_container` (lines 152–193): process the named children, then
chain the collected `container_nodes` pairwise when the container is a
`Sequential`. -/
def processContainer (st : BridgeState) (container : PTModule) (pre : String) :
    BridgeState × List Nat :=
  match container with
  | .mk c _ _ _ _ _ ch =>
    let r := processContChildren st ch pre
    if c = "Sequential" then
      ({ r.1 with connections := r.1.connections ++ chainConnections r.2 }, r.2)
    else r

/-- The `for name, child in container.named_children()` loop of
`process_container` (lines 156–182): a `Sequential`/`ModuleList`/
`ModuleDict` child is recursed into without a node of its own; any other
child gets a node, and if it has children of its own it is additionally
recursed into, connected to its first child node, and its child nodes are
chained pairwise. -/
def processContChildren (st : BridgeState) (cs : PTChildren) (pre : String) :
    BridgeState × List Nat :=
  match cs with
  | .nil => (st, [])
  | .cons name child rest =>
    let fullName := if pre = "" then name else pre ++ "." ++ name
    if isSeqContainer child then
      let r := processContainer st child fullName
      let rr := processContChildren r.1 rest pre
      (rr.1, r.2 ++ rr.2)
    else
      let a := addNode st child fullName
      let st2 :=
        if child.children.isNil then a.1
        else
          let rc := processContainer a.1 child fullName
          match rc.2 with
          | [] => rc.1
          | first :: _ =>
            { rc.1 with connections := rc.1.connections ++
                [⟨pyStr a.2, pyStr first, 1⟩] ++ chainConnections rc.2 }
      let rr := processContChildren st2 rest pre
      (rr.1, a.2 :: rr.2)
end

/-- The raw dict returned by `analyze_model` (lines 198–202). -/
structure BridgeResult where
  type : String
  nodes : List BridgeNode
  connections : List BridgeConn
  deriving DecidableEq, Repr

/-- `analyze_model` (lines 129–202): run `process_container` from the
root and return `{'type': 'PyTorch', 'nodes': ..., 'connections': ...}`. -/
def analyzeModel (model : PTModule) : BridgeResult :=
  let r := processContainer ⟨[], [], 0⟩ model ""
  ⟨"PyTorch", r.1.nodes, r.1.connections⟩

end Bridge

/-- Lookup in a `state_dict` (qualified parameter name → tensor). -/
def sdFind (sd : List (String × Tensor)) (k : String) : Option Tensor :=
  (sd.find? (fun kv => kv.1 = k)).map (·.2)

/-- The f-string rendering `f"{v}"` of a value.  Strings render as
themselves — the only case any claim exercises, since descriptor layer
names and type tags are strings; the remaining renderings are abbreviated
and never observed under the well-formedness hypotheses used below. -/
def Value.pyRepr : Value → String
  | .vstr s => s
  | .vint n => if n < 0 then "-" ++ pyStr (-n).toNat else pyStr n.toNat
  | .vbool b => if b then "True" else "False"
  | .vnone => "None"
  | .vrat _ => "<float>"
  | .vsqrt _ => "<float>"
  | .vnatList _ => "<list>"
  | .vtensor _ _ => "<tensor>"

namespace SrcPy

/-! ### `src/src/python/pytorch_converter.py` — descriptor-driven
reconstruction

`create_layer_from_info` instantiates a fresh torch layer from each
descriptor entry.  The freshly initialized parameter tensors carry random
values that the converter never reads (it only counts elements and tests
attribute presence), so parameter/attribute tensors are modelled with
empty data; `parameters()` is modelled by the `params` element-count
list, following the documented torch parameter shapes of each layer. -/

/-- A placeholder for a freshly initialized parameter tensor of the given
shape: only its presence (`is not None`) is ever observed. -/
def freshTensor (shape : List Nat) : Value := .vtensor [] shape

/-- The parameter list of `nn.RNNBase` layers (per documented torch
shapes): for each layer and direction, `weight_ih` `(gates·h, in)`,
`weight_hh` `(gates·h, h)`, `bias_ih` and `bias_hh` `(gates·h)`. -/
def rnnParams (gates inputSize hidden numLayers : Nat) (bidir : Bool) :
    List PParam :=
  let dirs := if bidir then 2 else 1
  (List.range numLayers).flatMap (fun l =>
    let inSize := if l = 0 then inputSize else hidden * dirs
    (List.range dirs).flatMap (fun _ =>
      [⟨gates * hidden * inSize, true⟩, ⟨gates * hidden * hidden, true⟩,
       ⟨gates * hidden, true⟩, ⟨gates * hidden, true⟩]))

/-- `nn.Dropout`'s constructor, called by `create_layer_from_info` with
`p=layer_info.get('p', 0.5)`: its `__init__` validates `if p < 0.0 or
p > 1.0: raise ValueError(f"dropout probability has to be between 0 and
1, but got {p}")`; comparing a non-numeric `p` against a number makes the
comparison itself raise a TypeError; Python bools are the numbers 0/1, so
both pass the range check. -/
def nnDropout (p : Value) : Except String PTModule :=
  match p with
  | .vint n =>
    if n < 0 ∨ 1 < n then
      .error ("dropout probability has to be between 0 and 1, but got "
        ++ (Value.vint n).pyRepr)
    else
      .ok (.mk "Dropout"
        [("p", .vint n), ("inplace", .vbool false),
         ("training", .vbool true)] [] none 0 none .nil)
  | .vrat q =>
    if q < 0 ∨ 1 < q then
      .error ("dropout probability has to be between 0 and 1, but got "
        ++ (Value.vrat q).pyRepr)
    else
      .ok (.mk "Dropout"
        [("p", .vrat q), ("inplace", .vbool false),
         ("training", .vbool true)] [] none 0 none .nil)
  | .vbool b =>
    .ok (.mk "Dropout"
      [("p", .vbool b), ("inplace", .vbool false),
       ("training", .vbool true)] [] none 0 none .nil)
  | pv =>
    .error ("TypeError: '<' not supported between dropout probability "
      ++ pv.pyRepr ++ " and int")

/-- `create_layer_from_info` (lines 10–64): dispatch on
`layer_info['type']`; an unknown tag raises
`ValueError(f"Unsupported layer type: {layer_type}")`. -/
def createLayerFromInfo (layerInfo : Dict) : Except String PTModule := do
  let layerType ← dget layerInfo "type"
  if layerType = .vstr "Conv2d" then do
    let ic ← (← dget layerInfo "in_channels").toNatE
    let oc ← (← dget layerInfo "out_channels").toNatE
    -- kernel_size=3, padding=1 are hardcoded at the call site
    .ok (.mk "Conv2d"
      [("in_channels", .vint ic), ("out_channels", .vint oc),
       ("kernel_size", .vint 3), ("padding", .vint 1),
       ("bias", freshTensor [oc]), ("training", .vbool true)]
      [⟨oc * ic * 3 * 3, true⟩, ⟨oc, true⟩]
      (some ⟨[], [oc, ic, 3, 3]⟩) 0 none .nil)
  else if layerType = .vstr "Conv1d" then do
    let ic ← (← dget layerInfo "in_channels").toNatE
    let oc ← (← dget layerInfo "out_channels").toNatE
    let k ← (dgetD layerInfo "kernel_size" (.vint 3)).toNatE
    .ok (.mk "Conv1d"
      [("in_channels", .vint ic), ("out_channels", .vint oc),
       ("kernel_size", .vint k),
       ("bias", freshTensor [oc]), ("training", .vbool true)]
      [⟨oc * ic * k, true⟩, ⟨oc, true⟩]
      (some ⟨[], [oc, ic, k]⟩) 0 none .nil)
  else if layerType = .vstr "Linear" then do
    let i ← (← dget layerInfo "in_features").toNatE
    let o ← (← dget layerInfo "out_features").toNatE
    .ok (.mk "Linear"
      [("in_features", .vint i), ("out_features", .vint o),
       ("bias", freshTensor [o]), ("training", .vbool true)]
      [⟨o * i, true⟩, ⟨o, true⟩]
      (some ⟨[], [o, i]⟩) 0 none .nil)
  else if layerType = .vstr "BatchNorm2d" then do
    let f ← (← dget layerInfo "num_features").toNatE
    .ok (.mk "BatchNorm2d"
      [("num_features", .vint f), ("eps", .vrat (1 / 100000)),
       ("momentum", .vrat (1 / 10)), ("affine", .vbool true),
       ("track_running_stats", .vbool true),
       ("bias", freshTensor [f]), ("training", .vbool true)]
      [⟨f, true⟩, ⟨f, true⟩]
      (some ⟨[], [f]⟩) 0 none .nil)
  else if layerType = .vstr "BatchNorm1d" then do
    let f ← (← dget layerInfo "num_features").toNatE
    .ok (.mk "BatchNorm1d"
      [("num_features", .vint f), ("eps", .vrat (1 / 100000)),
       ("momentum", .vrat (1 / 10)), ("affine", .vbool true),
       ("track_running_stats", .vbool true),
       ("bias", freshTensor [f]), ("training", .vbool true)]
      [⟨f, true⟩, ⟨f, true⟩]
      (some ⟨[], [f]⟩) 0 none .nil)
  else if layerType = .vstr "ReLU" then
    .ok (.mk "ReLU" [("inplace", .vbool false), ("training", .vbool true)]
      [] none 0 none .nil)
  else if layerType = .vstr "MaxPool2d" then
    -- kernel_size=2 hardcoded; stride defaults to kernel_size
    .ok (.mk "MaxPool2d"
      [("kernel_size", .vint 2), ("stride", .vint 2), ("padding", .vint 0),
       ("training", .vbool true)] [] none 0 none .nil)
  else if layerType = .vstr "MaxPool1d" then do
    let k ← (dgetD layerInfo "kernel_size" (.vint 2)).toNatE
    .ok (.mk "MaxPool1d"
      [("kernel_size", .vint k), ("stride", .vint k), ("padding", .vint 0),
       ("training", .vbool true)] [] none 0 none .nil)
  else if layerType = .vstr "Dropout" then
    nnDropout (dgetD layerInfo "p" (.vrat (1 / 2)))
  else if layerType = .vstr "LSTM" then do
    let i ← (← dget layerInfo "input_size").toNatE
    let h ← (← dget layerInfo "hidden_size").toNatE
    let nl ← (dgetD layerInfo "num_layers" (.vint 1)).toNatE
    let bd ← (dgetD layerInfo "bidirectional" (.vbool false)).toBoolE
    .ok (.mk "LSTM"
      [("input_size", .vint i), ("hidden_size", .vint h),
       ("num_layers", .vint nl), ("bias", .vbool true),
       ("batch_first", .vbool false), ("dropout", .vrat 0),
       ("bidirectional", .vbool bd), ("bias_hh_l0", freshTensor [4 * h]),
       ("training", .vbool true)]
      (rnnParams 4 i h nl bd) none 0 none .nil)
  else if layerType = .vstr "GRU" then do
    let i ← (← dget layerInfo "input_size").toNatE
    let h ← (← dget layerInfo "hidden_size").toNatE
    let nl ← (dgetD layerInfo "num_layers" (.vint 1)).toNatE
    let bd ← (dgetD layerInfo "bidirectional" (.vbool false)).toBoolE
    .ok (.mk "GRU"
      [("input_size", .vint i), ("hidden_size", .vint h),
       ("num_layers", .vint nl), ("bias", .vbool true),
       ("batch_first", .vbool false), ("dropout", .vrat 0),
       ("bidirectional", .vbool bd), ("bias_hh_l0", freshTensor [3 * h]),
       ("training", .vbool true)]
      (rnnParams 3 i h nl bd) none 0 none .nil)
  else if layerType = .vstr "LeakyReLU" then
    .ok (.mk "LeakyReLU"
      [("negative_slope", dgetD layerInfo "negative_slope" (.vrat (1 / 100))),
       ("inplace", .vbool false), ("training", .vbool true)] [] none 0 none .nil)
  else if layerType = .vstr "Sigmoid" then
    .ok (.mk "Sigmoid" [("training", .vbool true)] [] none 0 none .nil)
  else if layerType = .vstr "Tanh" then
    .ok (.mk "Tanh" [("training", .vbool true)] [] none 0 none .nil)
  else .error ("Unsupported layer type: " ++ layerType.pyRepr)

/-- `get_layer_properties` (lines 66–142): common fields plus an
isinstance-dispatched block, collected into the pydantic
`LayerProperties` model and serialized with `.dict(exclude_none=True)`
(fields left `None` are dropped).  pydantic's per-field type coercion is
not modelled beyond the `type: str` field — every input fed to it below
is well-typed. -/
def getLayerProperties (layer : PTModule) (layerInfo : Dict) :
    Except String Dict := do
  let tv ← dget layerInfo "type"
  let _ ← tv.toStrE
  let props : Dict := [
    ("type", tv),
    ("trainable_parameters", .vint layer.trainableParams)]
  let props ← do
    if layer.cls = "Linear" then
      pure (props ++ [
        ("in_features", ← dget layerInfo "in_features"),
        ("out_features", ← dget layerInfo "out_features"),
        ("has_bias", .vbool layer.hasBias)])
    else if layer.cls = "Conv1d" ∨ layer.cls = "Conv2d" then
      pure (props ++ [
        ("in_channels", ← dget layerInfo "in_channels"),
        ("out_channels", ← dget layerInfo "out_channels"),
        ("kernel_size", dgetD layerInfo "kernel_size" (.vint 3)),
        ("stride", dgetD layerInfo "stride" (.vint 1)),
        ("padding", dgetD layerInfo "padding" (.vint 0)),
        ("has_bias", .vbool layer.hasBias)])
    else if layer.cls = "BatchNorm1d" ∨ layer.cls = "BatchNorm2d" then
      pure (props ++ [
        ("num_features", ← dget layerInfo "num_features"),
        ("eps", layer.attr "eps"),
        ("momentum", layer.attr "momentum"),
        ("affine", layer.attr "affine")])
    else if layer.cls = "LSTM" ∨ layer.cls = "GRU" then
      pure (props ++ [
        ("input_size", ← dget layerInfo "input_size"),
        ("hidden_size", ← dget layerInfo "hidden_size"),
        ("num_layers", dgetD layerInfo "num_layers" (.vint 1)),
        ("bidirectional", dgetD layerInfo "bidirectional" (.vbool false)),
        ("has_bias", .vbool (layer.attr "bias_hh_l0" != .vnone))])
    else if layer.cls = "MaxPool1d" ∨ layer.cls = "MaxPool2d"
        ∨ layer.cls = "AvgPool1d" ∨ layer.cls = "AvgPool2d" then
      pure (props ++ [
        ("kernel_size", dgetD layerInfo "kernel_size" (.vint 2)),
        ("stride", dgetD layerInfo "stride" .vnone),
        ("padding", dgetD layerInfo "padding" (.vint 0))])
    else if layer.cls = "Dropout" then
      pure (props ++ [("p", dgetD layerInfo "p" (.vrat (1 / 2)))])
    else if layer.cls = "ReLU" then
      pure (props ++ [
        ("activation_type", .vstr "ReLU"),
        ("inplace", dgetD layer.attrs "inplace" (.vbool false))])
    else if layer.cls = "LeakyReLU" then
      pure (props ++ [
        ("activation_type", .vstr "LeakyReLU"),
        ("negative_slope", dgetD layerInfo "negative_slope" (.vrat (1 / 100))),
        ("inplace", dgetD layer.attrs "inplace" (.vbool false))])
    else if layer.cls = "Sigmoid" ∨ layer.cls = "Tanh" then
      pure (props ++ [("activation_type", .vstr layer.cls)])
    else
      pure props
  -- `.dict(exclude_none=True)`
  .ok (props.filter (fun kv => kv.2 != Value.vnone))

/-- The two fields `convert_pytorch_model` reads from its input:
`model_data['model_structure']['layers']` and `model_data['state_dict']`. -/
structure ModelData where
  layers : List Dict
  state_dict : List (String × Tensor)

/-- The weight-statistics block of `convert_pytorch_model` (lines
177–183): applied to the tensor found under `"<name>.weight"`, it records
the raw `np.max`, the raw `np.min`, the population `np.std` (as the exact
`vsqrt` of its radicand), and the shape. -/
def srcWeightStats (t : Tensor) : Dict :=
  [("max_weight", Value.vrat (npMax t.data)),
   ("min_weight", Value.vrat (npMin t.data)),
   ("std_weight", Value.vsqrt (npVar t.data)),
   ("shape", Value.vnatList t.shape)]

/-- The `for i, layer_info in enumerate(structure['layers'])` loop of
`convert_pytorch_model` (lines 153–192), with the running index, the
`prev_layer_id` variable and the accumulated lists made explicit. -/
def convertLayers (sd : List (String × Tensor)) :
    List Dict → Nat → Option String → List NetworkNode →
    List NetworkConnection →
    Except String (List NetworkNode × List NetworkConnection)
  | [], _, _, nodes, conns => .ok (nodes, conns)
  | layerInfo :: rest, i, prevLayerId, nodes, conns => do
    let layerId := "layer_" ++ pyStr i
    let layer ← createLayerFromInfo layerInfo
    let properties ← getLayerProperties layer layerInfo
    let tv ← dget layerInfo "type"
    let ts ← tv.toStrE
    let node : NetworkNode := ⟨layerId, ts, properties⟩
    let conns' ← do
      match prevLayerId with
      | none => pure conns
      | some prevId => do
        let nameV ← dget layerInfo "name"
        let weightKey := nameV.pyRepr ++ ".weight"
        let weightProps : Dict ← do
          match sdFind sd weightKey with
          | some t =>
            if t.data.isEmpty then
              -- np.max raises on a zero-size array
              .error "zero-size array to reduction operation maximum"
            else
              pure (srcWeightStats t)
          | none => pure []
        -- weight=1.0 is the default weight regardless of the statistics
        pure (conns ++ [⟨prevId, layerId, 1, weightProps⟩])
    convertLayers sd rest (i + 1) (some layerId) (nodes ++ [node]) conns'

/-- `convert_pytorch_model` (lines 144–198): run the loop and wrap the
result in a validated `NeuroscopeNetwork` with type tag `"ANN"`. -/
def convertPytorchModel (md : ModelData) : Except String NeuroscopeNetwork := do
  let r ← convertLayers md.state_dict md.layers 0 none [] []
  mkSrcNetwork "ANN" r.1 r.2

end SrcPy

namespace PySvc

/-! ### `src/python_service/main.py` — the second descriptor-driven loop -/

/-- The `for i, layer in enumerate(model_info['layers'])` loop of
`import_pytorch_model` (lines 93–118): one node per entry (its properties
are the raw descriptor entry), and a connection from the previous node
whose scalar weight is `torch.mean(torch.abs(w))` when
`"<name>.weight"` resolves in the weights mapping, `1.0` otherwise; the
connection properties are always the empty dict. -/
def importLoop (weights : List (String × Tensor)) :
    List Dict → Nat → Option NetworkNode → List NetworkNode →
    List NetworkConnection →
    Except String (List NetworkNode × List NetworkConnection)
  | [], _, _, nodes, conns => .ok (nodes, conns)
  | layer :: rest, i, prevNode, nodes, conns => do
    let tv ← dget layer "type"
    let ts ← tv.toStrE
    let node : NetworkNode := ⟨"layer_" ++ pyStr i, ts, layer⟩
    let conns' ← do
      match prevNode with
      | none => pure conns
      | some prev => do
        let nameV ← dget layer "name"
        let weightKey := nameV.pyRepr ++ ".weight"
        let w : ℚ :=
          match sdFind weights weightKey with
          | some t => npMean (npAbs t.data)
          | none => 1
        pure (conns ++ [⟨prev.id, node.id, w, []⟩])
    importLoop weights rest (i + 1) (some node) (nodes ++ [node]) conns'

/-- The conversion core of `import_pytorch_model` (lines 88–127): run the
loop and wrap the result with type tag `'ANN'` (the `python_service`
schema places no pattern constraint on the tag). -/
def importPytorchModel (layers : List Dict) (weights : List (String × Tensor)) :
    Except String NeuroscopeNetwork := do
  let r ← importLoop weights layers 0 none [] []
  .ok ⟨"ANN", r.1, r.2⟩

end PySvc

/-! ## Specification-side definitions and claim theorems -/

mutual
/-- Every leaf module (no children) has at least one registered hook. -/
def allLeavesHooked : PTModule → Bool
  | .mk _ _ _ _ h _ ch => if ch.isNil then decide (h > 0) else allLeavesHookedL ch

/-- `allLeavesHooked` over a child list. -/
def allLeavesHookedL : PTChildren → Bool
  | .nil => true
  | .cons _ m rest => allLeavesHooked m && allLeavesHookedL rest
end

mutual
/-- Every leaf module stores, as its `output` attribute, the detached
output tensor the forward run produced at its position. -/
def leafOutputsStored (f : List String → Tensor) (path : List String) :
    PTModule → Bool
  | .mk _ _ _ _ _ o ch =>
    if ch.isNil then decide (o = some (Tensor.detach (f path)))
    else leafOutputsStoredL f path ch

/-- `leafOutputsStored` over a child list. -/
def leafOutputsStoredL (f : List String → Tensor) (path : List String) :
    PTChildren → Bool
  | .nil => true
  | .cons n m rest =>
      leafOutputsStored f (path ++ [n]) m && leafOutputsStoredL f path rest
end

mutual
theorem register_allLeavesHooked (m : PTModule) :
    allLeavesHooked (PySvcLive.registerActivationHooks m) = true := by
  match m with
  | .mk c a p w h o ch =>
    match ch with
    | .nil => simp [PySvcLive.registerActivationHooks, allLeavesHooked, PTChildren.isNil]
    | .cons n cm rest =>
      have hl := register_allLeavesHookedL (.cons n cm rest)
      simp only [PySvcLive.registerActivationHooks, PTChildren.isNil, Bool.false_eq_true,
        if_false, allLeavesHooked]
      simpa [PySvcLive.registerActivationHooks.registerHooksChildren, PTChildren.isNil]
        using hl

theorem register_allLeavesHookedL (ch : PTChildren) :
    allLeavesHookedL (PySvcLive.registerActivationHooks.registerHooksChildren ch) = true := by
  match ch with
  | .nil => rfl
  | .cons n m rest =>
    simp [PySvcLive.registerActivationHooks.registerHooksChildren, allLeavesHookedL,
      register_allLeavesHooked m, register_allLeavesHookedL rest]
end

mutual
theorem forwardRun_stored (f : List String → Tensor) (path : List String)
    (m : PTModule) (hm : allLeavesHooked m = true) :
    leafOutputsStored f path (PySvcLive.forwardRun f path m) = true := by
  match m with
  | .mk c a p w h o ch =>
    match ch with
    | .nil =>
      have hh : h > 0 := by
        simpa [allLeavesHooked, PTChildren.isNil] using hm
      simp [PySvcLive.forwardRun, PySvcLive.forwardRun.forwardRunChildren,
        leafOutputsStored, PTChildren.isNil, hh]
    | .cons n cm rest =>
      have hl : allLeavesHookedL (.cons n cm rest) = true := by
        simpa [allLeavesHooked, PTChildren.isNil] using hm
      have hres := forwardRunL_stored f path (.cons n cm rest) hl
      simpa [PySvcLive.forwardRun, PySvcLive.forwardRun.forwardRunChildren,
        leafOutputsStored, PTChildren.isNil] using hres

theorem forwardRunL_stored (f : List String → Tensor) (path : List String)
    (ch : PTChildren) (hch : allLeavesHookedL ch = true) :
    leafOutputsStoredL f path (PySvcLive.forwardRun.forwardRunChildren f path ch) = true := by
  match ch with
  | .nil => rfl
  | .cons n m rest =>
    have h1 : allLeavesHooked m = true := by
      simp [allLeavesHookedL] at hch; exact hch.1
    have h2 : allLeavesHookedL rest = true := by
      simp [allLeavesHookedL] at hch; exact hch.2
    simp [PySvcLive.forwardRun.forwardRunChildren, leafOutputsStoredL,
      forwardRun_stored f (path ++ [n]) m h1, forwardRunL_stored f path rest h2]
end

mutual
theorem register_ne (m : PTModule) : PySvcLive.registerActivationHooks m ≠ m := by
  match m with
  | .mk c a p w h o ch =>
    match ch with
    | .nil =>
      simp only [PySvcLive.registerActivationHooks, PTChildren.isNil, if_true]
      intro heq
      injection heq with h1 h2 h3 h4 h5 h6 h7
      omega
    | .cons n cm rest =>
      simp only [PySvcLive.registerActivationHooks, PTChildren.isNil,
        Bool.false_eq_true, if_false]
      intro heq
      injection heq with h1 h2 h3 h4 h5 h6 h7
      exact registerL_ne (.cons n cm rest) (by simp [PTChildren.isNil]) h7

theorem registerL_ne (ch : PTChildren) (h : ch.isNil = false) :
    PySvcLive.registerActivationHooks.registerHooksChildren ch ≠ ch := by
  match ch with
  | .nil => simp [PTChildren.isNil] at h
  | .cons n m rest =>
    simp only [PySvcLive.registerActivationHooks.registerHooksChildren]
    intro heq
    injection heq with h1 h2 h3
    exact register_ne m h2
end

/-- C9: live-model conversion mutates its input: it first registers a
forward hook on every leaf module (returned as the second component of the
embedded conversion, which makes the in-place mutation explicit), and on a
later forward run every leaf stores the detached output tensor as its
`output` attribute; the returned model differs from the one passed in. -/
theorem c9_hooks_frame_effect (m : PTModule) (f : List String → Tensor) :
    (PySvcLive.convertPytorchModel m).2 = PySvcLive.registerActivationHooks m ∧
    allLeavesHooked (PySvcLive.convertPytorchModel m).2 = true ∧
    leafOutputsStored f [] (PySvcLive.forwardRun f []
      (PySvcLive.convertPytorchModel m).2) = true ∧
    (PySvcLive.convertPytorchModel m).2 ≠ m :=
  ⟨rfl, register_allLeavesHooked m,
   forwardRun_stored f [] _ (register_allLeavesHooked m), register_ne m⟩

/-- C10: a descriptor whose layer list is empty converts without error in
both descriptor-driven paths, to a network with no nodes and no
connections, whatever the weight mapping holds. -/
theorem c10_empty_descriptor (sd : List (String × Tensor)) :
    SrcPy.convertPytorchModel ⟨[], sd⟩ = .ok ⟨"ANN", [], []⟩ ∧
    PySvc.importPytorchModel [] sd = .ok ⟨"ANN", [], []⟩ :=
  ⟨rfl, rfl⟩

/-- A two-leaf model for the C8 counterexample. -/
def c8model : PTModule :=
  .mk "Net" [] [] none 0 none
    (.cons "act1" (.mk "ReLU" [("inplace", .vbool false), ("training", .vbool true)]
        [] none 0 none .nil)
      (.cons "act2" (.mk "Tanh" [("training", .vbool true)] [] none 0 none .nil) .nil))

/-- C8 counterexample: `analyze_model` of the bridge service returns a
network whose type tag is `'PyTorch'`, which is none of `"ANN"`, `"SNN"`,
`"Connectome"`. -/
theorem c8_counterexample :
    (Bridge.analyzeModel c8model).type = "PyTorch" ∧
    srcTypePattern (Bridge.analyzeModel c8model).type = false ∧
    ("PyTorch" ≠ "ANN" ∧ "PyTorch" ≠ "SNN" ∧ "PyTorch" ≠ "Connectome") := by
  refine ⟨rfl, rfl, by decide⟩

/-- C8 amended: the three conversions that build a `NeuroscopeNetwork`
always tag it `"ANN"` (one of the enumerated set, and the only value the
`src/src/python` pydantic pattern ever sees), but the bridge's
`analyze_model` tags its raw result `'PyTorch'`, outside the enumerated
set; the pattern of `src/src/python/models.py` accepts exactly the three
enumerated tags. -/
theorem c8_amended :
    (∀ md net, SrcPy.convertPytorchModel md = .ok net → net.type = "ANN") ∧
    (∀ layers weights net, PySvc.importPytorchModel layers weights = .ok net →
      net.type = "ANN") ∧
    (∀ m net, (PySvcLive.convertPytorchModel m).1 = .ok net → net.type = "ANN") ∧
    (∀ m, (Bridge.analyzeModel m).type = "PyTorch") ∧
    (∀ t, srcTypePattern t = true ↔ (t = "ANN" ∨ t = "SNN" ∨ t = "Connectome")) := by
  refine ⟨?_, ?_, ?_, fun m => rfl, fun t => by simp [srcTypePattern]; tauto⟩
  · intro md net h
    unfold SrcPy.convertPytorchModel at h
    cases hr : SrcPy.convertLayers md.state_dict md.layers 0 none [] [] with
    | error e =>
      rw [hr] at h
      exact Except.noConfusion (show (Except.error e : Except String NeuroscopeNetwork) = .ok net from h)
    | ok r =>
      rw [hr] at h
      have h2 : Except.ok ({ type := "ANN", nodes := r.1, connections := r.2 } :
          NeuroscopeNetwork) = Except.ok net := h
      injection h2 with h3
      rw [← h3]
  · intro layers weights net h
    unfold PySvc.importPytorchModel at h
    cases hr : PySvc.importLoop weights layers 0 none [] [] with
    | error e =>
      rw [hr] at h
      exact Except.noConfusion (show (Except.error e : Except String NeuroscopeNetwork) = .ok net from h)
    | ok r =>
      rw [hr] at h
      have h2 : Except.ok ({ type := "ANN", nodes := r.1, connections := r.2 } :
          NeuroscopeNetwork) = Except.ok net := h
      injection h2 with h3
      rw [← h3]
  · intro m net h
    simp only [PySvcLive.convertPytorchModel] at h
    cases hr : PySvcLive.processLayer ⟨[], [], 0⟩
        (PySvcLive.registerActivationHooks m) none with
    | error e =>
      rw [hr] at h
      exact Except.noConfusion
        (show (Except.error e : Except String NeuroscopeNetwork) = .ok net from h)
    | ok st =>
      rw [hr] at h
      have h2 : Except.ok (⟨"ANN", st.nodes, st.connections⟩ : NeuroscopeNetwork)
          = Except.ok net := h
      injection h2 with h3
      rw [← h3]

/-- Descriptor used by the C8 witness. -/
def c8wLayers : List Dict :=
  [[("type", .vstr "ReLU"), ("name", .vstr "act")],
   [("type", .vstr "Sigmoid"), ("name", .vstr "out")]]

/-- The `src/src/python` conversion of `c8wLayers` with no weights. -/
def c8wNetSrc : NeuroscopeNetwork :=
  ⟨"ANN",
   [⟨"layer_0", "ReLU", [("type", .vstr "ReLU"), ("trainable_parameters", .vint 0),
      ("activation_type", .vstr "ReLU"), ("inplace", .vbool false)]⟩,
    ⟨"layer_1", "Sigmoid", [("type", .vstr "Sigmoid"), ("trainable_parameters", .vint 0),
      ("activation_type", .vstr "Sigmoid")]⟩],
   [⟨"layer_0", "layer_1", 1, []⟩]⟩

/-- The `python_service` conversion of `c8wLayers` with no weights. -/
def c8wNetSvc : NeuroscopeNetwork :=
  ⟨"ANN",
   [⟨"layer_0", "ReLU", [("type", .vstr "ReLU"), ("name", .vstr "act")]⟩,
    ⟨"layer_1", "Sigmoid", [("type", .vstr "Sigmoid"), ("name", .vstr "out")]⟩],
   [⟨"layer_0", "layer_1", 1, []⟩]⟩

/-- A single leaf module whose live conversion succeeds, for the C8
witness. -/
def c8wLive : PTModule := .mk "Tanh" [("training", .vbool true)] [] none 0 none .nil

/-- The live conversion of `c8wLive`. -/
def c8wNetLive : NeuroscopeNetwork :=
  ⟨"ANN",
   [⟨"layer_0", "Tanh", [("type", .vstr "Tanh"),
      ("trainable_parameters", .vint 0), ("has_bias", .vbool false)]⟩],
   []⟩

/-- Witness for C8 amended: the hypotheses of its first three conjuncts
are dischargeable at concrete conversions. -/
theorem c8_amended_witness :
    (SrcPy.convertPytorchModel ⟨c8wLayers, []⟩ = .ok c8wNetSrc ∧
      c8wNetSrc.type = "ANN") ∧
    (PySvc.importPytorchModel c8wLayers [] = .ok c8wNetSvc ∧
      c8wNetSvc.type = "ANN") ∧
    ((PySvcLive.convertPytorchModel c8wLive).1 = .ok c8wNetLive ∧
      c8wNetLive.type = "ANN") :=
  ⟨⟨rfl, c8_amended.1 ⟨c8wLayers, []⟩ c8wNetSrc rfl⟩,
   ⟨rfl, c8_amended.2.1 c8wLayers [] c8wNetSvc rfl⟩,
   ⟨rfl, c8_amended.2.2.1 c8wLive c8wNetLive rfl⟩⟩

/-- The key is present and holds a non-negative integer. -/
def reqNat (d : Dict) (k : String) : Bool :=
  match dfind d k with
  | some (.vint n) => decide (0 ≤ n)
  | _ => false

theorem reqNat_spec (d : Dict) (k : String) (h : reqNat d k = true) :
    ∃ n : Int, 0 ≤ n ∧ dfind d k = some (.vint n) := by
  unfold reqNat at h
  rcases hf : dfind d k with _ | v
  · rw [hf] at h; exact absurd h (by simp)
  · rw [hf] at h
    rcases v with s | n | q | q2 | b | l | ⟨td, ts⟩ | _
    · exact absurd h (by simp)
    · exact ⟨n, of_decide_eq_true h, rfl⟩
    · exact absurd h (by simp)
    · exact absurd h (by simp)
    · exact absurd h (by simp)
    · exact absurd h (by simp)
    · exact absurd h (by simp)
    · exact absurd h (by simp)

theorem dget_of_dfind (d : Dict) (k : String) (v : Value) (h : dfind d k = some v) :
    dget d k = .ok v := by
  simp [dget, h]

theorem toNatE_of_nonneg (n : Int) (h : 0 ≤ n) :
    (Value.vint n).toNatE = .ok n.toNat := by
  simp [Value.toNatE, not_lt.2 h]

theorem reqNat_getNat (d : Dict) (k : String) (h : reqNat d k = true) :
    ∃ m : Nat, (do (← dget d k).toNatE : Except String Nat) = .ok m := by
  obtain ⟨n, hn, hf⟩ := reqNat_spec d k h
  refine ⟨n.toNat, ?_⟩
  rw [dget_of_dfind d k _ hf]
  exact toNatE_of_nonneg n hn

theorem exceptBind_ok {α β : Type} (a : α) (f : α → Except String β) :
    (Except.ok a >>= f) = f a := rfl

theorem exceptBind_error {α β : Type} (e : String) (f : α → Except String β) :
    ((Except.error e : Except String α) >>= f) = Except.error e := rfl

theorem exceptPure {α : Type} (a : α) : (pure a : Except String α) = Except.ok a := rfl

theorem bind_eq_ok {α β : Type} {e : Except String α} {f : α → Except String β} {b : β} :
    (e >>= f) = .ok b ↔ ∃ a, e = .ok a ∧ f a = .ok b := by
  cases e with
  | error e => simp [exceptBind_error]
  | ok a => simp [exceptBind_ok]

/-- The id assigned to descriptor entry `i` by both descriptor loops. -/
def layerId (i : Nat) : String := "layer_" ++ pyStr i

theorem layerId_injective : Function.Injective layerId := by
  intro a b h
  have hd : ("layer_" ++ pyStr a).data = ("layer_" ++ pyStr b).data :=
    congrArg String.data h
  simp only [String.data_append] at hd
  exact pyStr_injective (String.ext (List.append_cancel_left hd))

/-- C7 counterexample: the descriptor-site statistics block records the
raw `np.max`, not the maximum absolute value: on `[-2, 1]` it stores `1`
while the maximum absolute value is `2`. -/
theorem c7_counterexample :
    dfind (SrcPy.srcWeightStats ⟨[-2, 1], [2]⟩) "max_weight"
        = some (.vrat (npMax [-2, 1])) ∧
    npMax [-2, 1] = 1 ∧ npMax (npAbs [-2, 1]) = 2 ∧ (1 : ℚ) ≠ 2 := by
  refine ⟨rfl, ?_, ?_, by norm_num⟩
  · show max (-2 : ℚ) 1 = 1
    norm_num
  · show max |(-2 : ℚ)| |(1 : ℚ)| = 2
    rw [abs_of_nonpos (by norm_num), abs_of_nonneg (by norm_num)]
    norm_num

theorem mean_mul_length (l : List ℚ) (h : l ≠ []) :
    npMean l * l.length = l.sum := by
  have hlen : (l.length : ℚ) ≠ 0 := by
    simp only [ne_eq, Nat.cast_eq_zero, List.length_eq_zero]
    exact h
  unfold npMean
  field_simp

/-- C7 amended: both statistics blocks compute population (not sample)
standard deviation over the flattened tensor and record the shape, but
the descriptor call site stores the raw maximum and raw minimum while the
live call site stores the maximum and minimum of absolute values and uses
the mean absolute value as the scalar weight. -/
theorem c7_amended (t : Tensor) (h : t.data ≠ []) :
    (∃ m, dfind (SrcPy.srcWeightStats t) "max_weight" = some (.vrat m) ∧
       m ∈ t.data ∧ ∀ x ∈ t.data, x ≤ m) ∧
    (∃ m, dfind (SrcPy.srcWeightStats t) "min_weight" = some (.vrat m) ∧
       m ∈ t.data ∧ ∀ x ∈ t.data, m ≤ x) ∧
    (∃ v μ, dfind (SrcPy.srcWeightStats t) "std_weight" = some (.vsqrt v) ∧
       μ * t.data.length = t.data.sum ∧
       v * t.data.length = (t.data.map (fun x => (x - μ) ^ 2)).sum) ∧
    dfind (SrcPy.srcWeightStats t) "shape" = some (.vnatList t.shape) ∧
    (∀ p l, (PySvcLive.liveConn p l t).weight * t.data.length
        = (t.data.map (fun x => |x|)).sum) ∧
    (∀ p l, ∃ m,
       dfind (PySvcLive.liveConn p l t).properties "max_weight" = some (.vrat m) ∧
       m ∈ t.data.map (fun x => |x|) ∧ ∀ x ∈ t.data, |x| ≤ m) ∧
    (∀ p l, ∃ m,
       dfind (PySvcLive.liveConn p l t).properties "min_weight" = some (.vrat m) ∧
       m ∈ t.data.map (fun x => |x|) ∧ ∀ x ∈ t.data, m ≤ |x|) ∧
    (∀ p l, ∃ v μ,
       dfind (PySvcLive.liveConn p l t).properties "std_weight" = some (.vsqrt v) ∧
       μ * t.data.length = t.data.sum ∧
       v * t.data.length = (t.data.map (fun x => (x - μ) ^ 2)).sum) ∧
    (∀ p l, dfind (PySvcLive.liveConn p l t).properties "shape"
        = some (.vnatList t.shape)) := by
  have habs : npAbs t.data ≠ [] := by
    simpa [npAbs] using h
  have habslen : (npAbs t.data).length = t.data.length := by simp [npAbs]
  have hvar : npVar t.data * t.data.length = (t.data.map (fun x => (x - npMean t.data) ^ 2)).sum := by
    have := mean_mul_length (t.data.map (fun x => (x - npMean t.data) ^ 2)) (by simpa using h)
    simpa [npVar, List.length_map] using this
  refine ⟨⟨npMax t.data, rfl, npMax_mem t.data h, le_npMax t.data⟩,
    ⟨npMin t.data, rfl, npMin_mem t.data h, npMin_le t.data⟩,
    ⟨npVar t.data, npMean t.data, rfl, mean_mul_length t.data h, hvar⟩,
    rfl, ?_, ?_, ?_, ?_, fun p l => rfl⟩
  · intro p l
    show npMean (npAbs t.data) * t.data.length = _
    rw [← habslen, mean_mul_length (npAbs t.data) habs]
    rfl
  · intro p l
    refine ⟨npMax (npAbs t.data), rfl, ?_, ?_⟩
    · exact npMax_mem (npAbs t.data) habs
    · intro x hx
      exact le_npMax (npAbs t.data) |x| (by simp [npAbs]; exact ⟨x, hx, rfl⟩)
  · intro p l
    refine ⟨npMin (npAbs t.data), rfl, ?_, ?_⟩
    · exact npMin_mem (npAbs t.data) habs
    · intro x hx
      exact npMin_le (npAbs t.data) |x| (by simp [npAbs]; exact ⟨x, hx, rfl⟩)
  · intro p l
    exact ⟨npVar t.data, npMean t.data, rfl, mean_mul_length t.data h, hvar⟩

/-- Witness for C7 amended at the tensor `[-2, 1]`. -/
theorem c7_amended_witness :
    (([-2, 1] : List ℚ) ≠ []) ∧
    (∃ m, dfind (SrcPy.srcWeightStats ⟨[-2, 1], [2]⟩) "max_weight" = some (.vrat m) ∧
       m ∈ ([-2, 1] : List ℚ) ∧ ∀ x ∈ ([-2, 1] : List ℚ), x ≤ m) :=
  ⟨by decide, (c7_amended ⟨[-2, 1], [2]⟩ (by decide)).1⟩

mutual
/-- Number of modules in the subtree (the pre-order visit length). -/
def moduleCount : PTModule → Nat
  | .mk _ _ _ _ _ _ ch => 1 + moduleCountL ch

/-- `moduleCount` over a child list. -/
def moduleCountL : PTChildren → Nat
  | .nil => 0
  | .cons _ m rest => moduleCount m + moduleCountL rest
end

mutual
/-- The pre-order node listing of the live traversal, ids numbered
consecutively from `c`. -/
def liveNodes : PTModule → Nat → List NetworkNode
  | m@(.mk _ _ _ _ _ _ ch), c =>
      ⟨layerId c, m.cls, PySvcLive.getLayerProperties m⟩ :: liveNodesL ch (c + 1)

/-- `liveNodes` over a child list. -/
def liveNodesL : PTChildren → Nat → List NetworkNode
  | .nil, _ => []
  | .cons _ m rest, c => liveNodes m c ++ liveNodesL rest (c + moduleCount m)
end

/-- The edge the live traversal emits from a parent node to a module at
id `c`: present exactly when there is a parent and the module carries a
`weight` attribute. -/
def parentEdge (pid : Option String) (c : Nat) : PTModule → List NetworkConnection
  | .mk _ _ _ w _ _ _ =>
    match pid, w with
    | some p, some wt => [PySvcLive.liveConn p (layerId c) wt]
    | _, _ => []

mutual
/-- All edges of the live traversal inside the subtree rooted at id `c`:
one parent-to-child edge per weight-carrying child, recursively. -/
def liveEdges : PTModule → Nat → List NetworkConnection
  | .mk _ _ _ _ _ _ ch, c => liveEdgesL ch (layerId c) (c + 1)

/-- `liveEdges` over a child list with parent node id `p`. -/
def liveEdgesL : PTChildren → String → Nat → List NetworkConnection
  | .nil, _, _ => []
  | .cons _ m rest, p, c =>
      parentEdge (some p) c m ++ liveEdges m c ++ liveEdgesL rest p (c + moduleCount m)
end

mutual
/-- No module visited with a parent carries a zero-size weight tensor:
the exact domain on which the live traversal raises no exception
(`hasParent` is false only for the root call). -/
def liveOK (hasParent : Bool) : PTModule → Bool
  | .mk _ _ _ w _ _ ch =>
    (match hasParent, w with
     | true, some wt => !wt.data.isEmpty
     | _, _ => true) && liveOKL ch

/-- `liveOK` over a child list (children are always visited with a
parent). -/
def liveOKL : PTChildren → Bool
  | .nil => true
  | .cons _ m rest => liveOK true m && liveOKL rest
end

mutual
theorem processLayer_spec (st : PySvcLive.LiveState) (m : PTModule)
    (pid : Option String) (h : liveOK pid.isSome m = true) :
    PySvcLive.processLayer st m pid =
      .ok ⟨st.nodes ++ liveNodes m st.counter,
       st.connections ++ parentEdge pid st.counter m ++ liveEdges m st.counter,
       st.counter + moduleCount m⟩ := by
  match m with
  | .mk c0 a p w hk o ch =>
    simp only [liveOK, Bool.and_eq_true] at h
    obtain ⟨h1, h2⟩ := h
    cases pid with
    | none =>
      cases w with
      | none =>
        simp only [PySvcLive.processLayer]
        rw [processChildren_spec _ _ _ h2]
        simp only [liveNodes, liveEdges, parentEdge, moduleCount, PTModule.cls]
        refine congrArg Except.ok ?_
        simp only [PySvcLive.LiveState.mk.injEq]
        exact ⟨by simp [layerId], by simp [layerId], by omega⟩
      | some wt =>
        simp only [PySvcLive.processLayer]
        rw [processChildren_spec _ _ _ h2]
        simp only [liveNodes, liveEdges, parentEdge, moduleCount, PTModule.cls]
        refine congrArg Except.ok ?_
        simp only [PySvcLive.LiveState.mk.injEq]
        exact ⟨by simp [layerId], by simp [layerId], by omega⟩
    | some pid' =>
      cases w with
      | none =>
        simp only [PySvcLive.processLayer]
        rw [processChildren_spec _ _ _ h2]
        simp only [liveNodes, liveEdges, parentEdge, moduleCount, PTModule.cls]
        refine congrArg Except.ok ?_
        simp only [PySvcLive.LiveState.mk.injEq]
        exact ⟨by simp [layerId], by simp [layerId], by omega⟩
      | some wt =>
        have hne : wt.data.isEmpty = false := by simpa using h1
        simp only [PySvcLive.processLayer]
        rw [hne]
        simp only [Bool.false_eq_true, if_false]
        rw [processChildren_spec _ _ _ h2]
        simp only [liveNodes, liveEdges, parentEdge, moduleCount, PTModule.cls]
        refine congrArg Except.ok ?_
        simp only [PySvcLive.LiveState.mk.injEq]
        exact ⟨by simp [layerId], by simp [layerId], by omega⟩

theorem processChildren_spec (st : PySvcLive.LiveState) (cs : PTChildren)
    (pid : String) (h : liveOKL cs = true) :
    PySvcLive.processChildren st cs pid =
      .ok ⟨st.nodes ++ liveNodesL cs st.counter,
       st.connections ++ liveEdgesL cs pid st.counter,
       st.counter + moduleCountL cs⟩ := by
  match cs with
  | .nil => simp [PySvcLive.processChildren, liveNodesL, liveEdgesL, moduleCountL]
  | .cons n m rest =>
    simp only [liveOKL, Bool.and_eq_true] at h
    obtain ⟨h1, h2⟩ := h
    simp only [PySvcLive.processChildren]
    rw [processLayer_spec _ _ _ (show liveOK (some pid).isSome m = true from h1)]
    simp only [exceptBind_ok]
    rw [processChildren_spec _ _ _ h2]
    simp only [liveNodesL, liveEdgesL, moduleCountL]
    refine congrArg Except.ok ?_
    simp only [PySvcLive.LiveState.mk.injEq]
    exact ⟨by simp, by simp, by omega⟩
end

mutual
theorem trainableParams_register (m : PTModule) :
    (PySvcLive.registerActivationHooks m).trainableParams = m.trainableParams := by
  match m with
  | .mk c a p w h o ch =>
    match ch with
    | .nil => rfl
    | .cons n cm rest =>
      simp only [PySvcLive.registerActivationHooks, PTChildren.isNil, Bool.false_eq_true,
        if_false, PTModule.trainableParams]
      rw [trainableParamsL_register (.cons n cm rest)]

theorem trainableParamsL_register (ch : PTChildren) :
    PTModule.trainableParams.trainableParamsL
        (PySvcLive.registerActivationHooks.registerHooksChildren ch)
      = PTModule.trainableParams.trainableParamsL ch := by
  match ch with
  | .nil => rfl
  | .cons n m rest =>
    simp only [PySvcLive.registerActivationHooks.registerHooksChildren,
      PTModule.trainableParams.trainableParamsL]
    rw [trainableParams_register m, trainableParamsL_register rest]
end

/-- Registering hooks changes no field the property extractor reads. -/
theorem getLayerProperties_register (m : PTModule) :
    PySvcLive.getLayerProperties (PySvcLive.registerActivationHooks m)
      = PySvcLive.getLayerProperties m := by
  match m with
  | .mk c a p w h o ch =>
    match ch with
    | .nil =>
      simp only [PySvcLive.registerActivationHooks, PTChildren.isNil, if_true]
      simp only [PySvcLive.getLayerProperties, PTModule.cls, PTModule.attrs,
        PTModule.hasBias, PTModule.attr, trainableParams_register (.mk c a p w h o .nil)]
      rfl
    | .cons n cm rest =>
      simp only [PySvcLive.registerActivationHooks, PTChildren.isNil, Bool.false_eq_true,
        if_false]
      have ht := trainableParams_register (.mk c a p w h o (.cons n cm rest))
      simp only [PySvcLive.registerActivationHooks, PTChildren.isNil, Bool.false_eq_true,
        if_false] at ht
      simp only [PySvcLive.getLayerProperties, PTModule.cls, PTModule.attrs,
        PTModule.hasBias, PTModule.attr, ht]

mutual
theorem moduleCount_register (m : PTModule) :
    moduleCount (PySvcLive.registerActivationHooks m) = moduleCount m := by
  match m with
  | .mk c a p w h o ch =>
    match ch with
    | .nil => rfl
    | .cons n cm rest =>
      simp only [PySvcLive.registerActivationHooks, PTChildren.isNil, Bool.false_eq_true,
        if_false, moduleCount]
      rw [moduleCountL_register (.cons n cm rest)]

theorem moduleCountL_register (ch : PTChildren) :
    moduleCountL (PySvcLive.registerActivationHooks.registerHooksChildren ch)
      = moduleCountL ch := by
  match ch with
  | .nil => rfl
  | .cons n m rest =>
    simp only [PySvcLive.registerActivationHooks.registerHooksChildren, moduleCountL]
    rw [moduleCount_register m, moduleCountL_register rest]
end

mutual
theorem liveNodes_register (m : PTModule) : ∀ c,
    liveNodes (PySvcLive.registerActivationHooks m) c = liveNodes m c := by
  match m with
  | .mk c0 a p w h o ch =>
    intro c
    match ch with
    | .nil => rfl
    | .cons n cm rest =>
      simp only [PySvcLive.registerActivationHooks, PTChildren.isNil, Bool.false_eq_true,
        if_false]
      have hp := getLayerProperties_register (.mk c0 a p w h o (.cons n cm rest))
      simp only [PySvcLive.registerActivationHooks, PTChildren.isNil, Bool.false_eq_true,
        if_false] at hp
      simp only [liveNodes, PTModule.cls, hp]
      rw [liveNodesL_register (.cons n cm rest)]

theorem liveNodesL_register (ch : PTChildren) : ∀ c,
    liveNodesL (PySvcLive.registerActivationHooks.registerHooksChildren ch) c
      = liveNodesL ch c := by
  match ch with
  | .nil => intro c; rfl
  | .cons n m rest =>
    intro c
    simp only [PySvcLive.registerActivationHooks.registerHooksChildren, liveNodesL]
    rw [liveNodes_register m, liveNodesL_register rest, moduleCount_register m]
end

theorem parentEdge_register (pid : Option String) (c : Nat) (m : PTModule) :
    parentEdge pid c (PySvcLive.registerActivationHooks m) = parentEdge pid c m := by
  match m with
  | .mk c0 a p w h o ch => cases ch <;> rfl

mutual
theorem liveEdges_register (m : PTModule) : ∀ c,
    liveEdges (PySvcLive.registerActivationHooks m) c = liveEdges m c := by
  match m with
  | .mk c0 a p w h o ch =>
    intro c
    match ch with
    | .nil => rfl
    | .cons n cm rest =>
      simp only [PySvcLive.registerActivationHooks, PTChildren.isNil, Bool.false_eq_true,
        if_false, liveEdges]
      rw [liveEdgesL_register (.cons n cm rest)]

theorem liveEdgesL_register (ch : PTChildren) : ∀ p c,
    liveEdgesL (PySvcLive.registerActivationHooks.registerHooksChildren ch) p c
      = liveEdgesL ch p c := by
  match ch with
  | .nil => intro p c; rfl
  | .cons n m rest =>
    intro p c
    simp only [PySvcLive.registerActivationHooks.registerHooksChildren, liveEdgesL]
    rw [liveEdges_register m, liveEdgesL_register rest, moduleCount_register m,
      parentEdge_register (some p) c m]
end

mutual
theorem liveNodes_ids (m : PTModule) : ∀ c,
    (liveNodes m c).map (fun n => n.id) = (List.range' c (moduleCount m)).map layerId := by
  match m with
  | .mk c0 a p w h o ch =>
    intro c
    simp only [liveNodes, moduleCount, List.map_cons, Nat.add_comm 1 (moduleCountL ch),
      List.range'_succ, liveNodesL_ids ch (c + 1)]

theorem liveNodesL_ids (ch : PTChildren) : ∀ c,
    (liveNodesL ch c).map (fun n => n.id)
      = (List.range' c (moduleCountL ch)).map layerId := by
  match ch with
  | .nil => intro c; rfl
  | .cons n m rest =>
    intro c
    simp only [liveNodesL, moduleCountL, List.map_append, liveNodes_ids m c,
      liveNodesL_ids rest (c + moduleCount m)]
    rw [← List.map_append, List.range'_append_1,
      Nat.add_comm (moduleCountL rest) (moduleCount m)]
end

theorem parentEdge_mem {p : String} {c : Nat} {m : PTModule} {e : NetworkConnection}
    (he : e ∈ parentEdge (some p) c m) : e.source = p ∧ e.target = layerId c := by
  match m with
  | .mk _ _ _ w _ _ _ =>
    cases w with
    | none => cases he
    | some wt =>
      simp only [parentEdge, List.mem_singleton] at he
      subst he
      exact ⟨rfl, rfl⟩

mutual
theorem liveEdges_bounds (m : PTModule) : ∀ c, ∀ e ∈ liveEdges m c,
    ∃ a b, e.source = layerId a ∧ e.target = layerId b ∧
      c ≤ a ∧ a < c + moduleCount m ∧ c ≤ b ∧ b < c + moduleCount m := by
  match m with
  | .mk c0 a0 p w h o ch =>
    intro c e he
    simp only [liveEdges] at he
    have hcnt : moduleCount (PTModule.mk c0 a0 p w h o ch) = 1 + moduleCountL ch := rfl
    obtain ⟨hsrc, b, hb, hb1, hb2⟩ := liveEdgesL_bounds ch (layerId c) (c + 1) e he
    rcases hsrc with hp | ⟨a, ha, ha1, ha2⟩
    · exact ⟨c, b, hp, hb, le_rfl, by omega, by omega, by omega⟩
    · exact ⟨a, b, ha, hb, by omega, by omega, by omega, by omega⟩

theorem liveEdgesL_bounds (ch : PTChildren) : ∀ p c, ∀ e ∈ liveEdgesL ch p c,
    (e.source = p ∨ ∃ a, e.source = layerId a ∧ c ≤ a ∧ a < c + moduleCountL ch) ∧
    ∃ b, e.target = layerId b ∧ c ≤ b ∧ b < c + moduleCountL ch := by
  match ch with
  | .nil => intro p c e he; cases he
  | .cons n m rest =>
    intro p c e he
    have hm1 : 1 ≤ moduleCount m := by
      match m with
      | .mk _ _ _ _ _ _ mch => exact Nat.le_add_right 1 (moduleCountL mch)
    simp only [liveEdgesL, List.mem_append] at he
    rcases he with (he | he) | he
    · obtain ⟨hsrc, htgt⟩ := parentEdge_mem he
      refine ⟨.inl hsrc, c, htgt, le_rfl, ?_⟩
      simp only [moduleCountL]
      omega
    · obtain ⟨a, b, ha, hb, h1, h2, h3, h4⟩ := liveEdges_bounds m c e he
      refine ⟨.inr ⟨a, ha, h1, ?_⟩, b, hb, h3, ?_⟩ <;>
        · simp only [moduleCountL]; omega
    · obtain ⟨hsrc, b, hb, hb1, hb2⟩ := liveEdgesL_bounds rest p (c + moduleCount m) e he
      refine ⟨?_, b, hb, by omega, ?_⟩
      · rcases hsrc with hp | ⟨a, ha, ha1, ha2⟩
        · exact .inl hp
        · refine .inr ⟨a, ha, by omega, ?_⟩
          simp only [moduleCountL]
          omega
      · simp only [moduleCountL]
        omega
end

mutual
theorem liveOK_register (hp : Bool) (m : PTModule) :
    liveOK hp (PySvcLive.registerActivationHooks m) = liveOK hp m := by
  match m with
  | .mk c a p w h o ch =>
    match ch with
    | .nil => rfl
    | .cons n cm rest =>
      simp only [PySvcLive.registerActivationHooks, PTChildren.isNil, Bool.false_eq_true,
        if_false, liveOK]
      rw [liveOKL_register (.cons n cm rest)]

theorem liveOKL_register (ch : PTChildren) :
    liveOKL (PySvcLive.registerActivationHooks.registerHooksChildren ch)
      = liveOKL ch := by
  match ch with
  | .nil => rfl
  | .cons n m rest =>
    simp only [PySvcLive.registerActivationHooks.registerHooksChildren, liveOKL]
    rw [liveOK_register true m, liveOKL_register rest]
end

/-- The live conversion in closed form: on the exception-free domain the
network is the pre-order node listing with sequential ids and the
parent-to-weight-carrying-child edge set of the input model (hook
registration changes neither). -/
theorem convertLive_spec (m : PTModule) (h : liveOK false m = true) :
    (PySvcLive.convertPytorchModel m).1
      = .ok ⟨"ANN", liveNodes m 0, liveEdges m 0⟩ := by
  have hreg : liveOK (none : Option String).isSome
      (PySvcLive.registerActivationHooks m) = true := by
    rw [show (none : Option String).isSome = false from rfl, liveOK_register]
    exact h
  simp only [PySvcLive.convertPytorchModel]
  rw [processLayer_spec _ _ _ hreg]
  simp only [List.nil_append, liveNodes_register, liveEdges_register]
  have hpe : parentEdge none 0 (PySvcLive.registerActivationHooks m) = [] := by
    match hr : PySvcLive.registerActivationHooks m with
    | .mk c a p w h o ch => simp [parentEdge]
  rw [hpe]
  simp

mutual
theorem processLayer_err (st : PySvcLive.LiveState) (m : PTModule)
    (pid : Option String) (h : liveOK pid.isSome m = false) :
    PySvcLive.processLayer st m pid = .error PySvcLive.zeroSizeMsg := by
  match m with
  | .mk c0 a p w hk o ch =>
    cases pid with
    | none =>
      have hch : liveOKL ch = false := by simpa [liveOK] using h
      cases w with
      | none =>
        simp only [PySvcLive.processLayer]
        rw [processChildren_err _ _ _ hch]
      | some wt =>
        simp only [PySvcLive.processLayer]
        rw [processChildren_err _ _ _ hch]
    | some pid' =>
      cases w with
      | none =>
        have hch : liveOKL ch = false := by simpa [liveOK] using h
        simp only [PySvcLive.processLayer]
        rw [processChildren_err _ _ _ hch]
      | some wt =>
        cases hE : wt.data.isEmpty with
        | true =>
          simp only [PySvcLive.processLayer]
          rw [hE]
          simp only [reduceIte]
        | false =>
          have hch : liveOKL ch = false := by simpa [liveOK, hE] using h
          simp only [PySvcLive.processLayer]
          rw [hE]
          simp only [Bool.false_eq_true, if_false]
          rw [processChildren_err _ _ _ hch]

theorem processChildren_err (st : PySvcLive.LiveState) (cs : PTChildren)
    (pid : String) (h : liveOKL cs = false) :
    PySvcLive.processChildren st cs pid = .error PySvcLive.zeroSizeMsg := by
  match cs with
  | .nil => exact absurd h (by simp [liveOKL])
  | .cons n m rest =>
    simp only [liveOKL] at h
    cases hm : liveOK true m with
    | false =>
      simp only [PySvcLive.processChildren]
      rw [processLayer_err _ _ _ (show liveOK (some pid).isSome m = false from hm)]
      simp only [exceptBind_error]
    | true =>
      have hrest : liveOKL rest = false := by
        rw [hm] at h
        simpa using h
      simp only [PySvcLive.processChildren]
      rw [processLayer_spec _ _ _ (show liveOK (some pid).isSome m = true from hm)]
      simp only [exceptBind_ok]
      rw [processChildren_err _ _ _ hrest]
end

/-- On a model with a zero-size weight tensor below the root, the live
conversion raises numpy's zero-size `ValueError` (no partial network). -/
theorem convertLive_err (m : PTModule) (h : liveOK false m = false) :
    (PySvcLive.convertPytorchModel m).1 = .error PySvcLive.zeroSizeMsg := by
  have hreg : liveOK (none : Option String).isSome
      (PySvcLive.registerActivationHooks m) = false := by
    rw [show (none : Option String).isSome = false from rfl, liveOK_register]
    exact h
  simp only [PySvcLive.convertPytorchModel]
  rw [processLayer_err _ _ _ hreg]

/-- The id/reference invariant of the bridge accumulator: node ids are
exactly the decimal renderings of `0 … nodeCount-1` in order, and every
connection endpoint is among them. -/
def BridgeInv (st : Bridge.BridgeState) : Prop :=
  st.nodes.map (fun n => n.id) = (List.range st.nodeCount).map pyStr ∧
  ∀ e ∈ st.connections, e.source ∈ st.nodes.map (fun n => n.id) ∧
    e.target ∈ st.nodes.map (fun n => n.id)

theorem pyStr_mem_ids {st : Bridge.BridgeState}
    (h : st.nodes.map (fun n => n.id) = (List.range st.nodeCount).map pyStr)
    {i : Nat} (hi : i < st.nodeCount) :
    pyStr i ∈ st.nodes.map (fun n => n.id) := by
  rw [h]
  exact List.mem_map_of_mem _ (List.mem_range.mpr hi)

theorem addNode_inv (st : Bridge.BridgeState) (layer : PTModule) (name : String)
    (h : BridgeInv st) :
    BridgeInv (Bridge.addNode st layer name).1 ∧
    (Bridge.addNode st layer name).2 = st.nodeCount ∧
    (Bridge.addNode st layer name).1.nodeCount = st.nodeCount + 1 := by
  obtain ⟨h1, h2⟩ := h
  refine ⟨⟨?_, ?_⟩, rfl, rfl⟩
  · simp only [Bridge.addNode, List.map_append, List.map_cons, List.map_nil, h1,
      List.range_succ]
  · intro e he
    obtain ⟨hs, ht⟩ := h2 e he
    simp only [Bridge.addNode, List.map_append]
    exact ⟨List.mem_append_left _ hs, List.mem_append_left _ ht⟩

theorem chainConnections_mem : ∀ (ids : List Nat) (e : Bridge.BridgeConn),
    e ∈ Bridge.chainConnections ids →
    ∃ a b, a ∈ ids ∧ b ∈ ids ∧ e = ⟨pyStr a, pyStr b, 1⟩
  | [], e, he => by cases he
  | [x], e, he => by cases he
  | x :: y :: rest, e, he => by
    simp only [Bridge.chainConnections, List.tail_cons, List.zipWith_cons_cons] at he
    rcases List.mem_cons.mp he with rfl | he
    · exact ⟨x, y, List.mem_cons_self _ _, List.mem_cons_of_mem _ (List.mem_cons_self _ _), rfl⟩
    · obtain ⟨a, b, ha, hb, rfl⟩ := chainConnections_mem (y :: rest) e he
      exact ⟨a, b, List.mem_cons_of_mem _ ha, List.mem_cons_of_mem _ hb, rfl⟩

mutual
theorem processContainer_inv (st : Bridge.BridgeState) (m : PTModule) (pre : String)
    (h : BridgeInv st) :
    BridgeInv (Bridge.processContainer st m pre).1 ∧
    st.nodeCount ≤ (Bridge.processContainer st m pre).1.nodeCount ∧
    ∀ i ∈ (Bridge.processContainer st m pre).2,
      i < (Bridge.processContainer st m pre).1.nodeCount := by
  match m with
  | .mk c a p w hk o ch =>
    obtain ⟨h1, h2, h3⟩ := processContChildren_inv st ch pre h
    simp only [Bridge.processContainer]
    by_cases hc : c = "Sequential"
    · subst hc
      simp only [reduceIte]
      refine ⟨⟨h1.1, ?_⟩, h2, h3⟩
      intro e he
      rcases List.mem_append.mp he with he | he
      · exact h1.2 e he
      · obtain ⟨x, y, hx, hy, rfl⟩ :=
          chainConnections_mem (Bridge.processContChildren st ch pre).2 e he
        exact ⟨pyStr_mem_ids h1.1 (h3 x hx), pyStr_mem_ids h1.1 (h3 y hy)⟩
    · rw [if_neg hc]
      exact ⟨h1, h2, h3⟩

theorem processContChildren_inv (st : Bridge.BridgeState) (cs : PTChildren) (pre : String)
    (h : BridgeInv st) :
    BridgeInv (Bridge.processContChildren st cs pre).1 ∧
    st.nodeCount ≤ (Bridge.processContChildren st cs pre).1.nodeCount ∧
    ∀ i ∈ (Bridge.processContChildren st cs pre).2,
      i < (Bridge.processContChildren st cs pre).1.nodeCount := by
  match cs with
  | .nil =>
    refine ⟨h, le_rfl, ?_⟩
    intro i hi
    cases hi
  | .cons name child rest =>
    simp only [Bridge.processContChildren]
    cases hsc : Bridge.isSeqContainer child with
    | true =>
      simp only [reduceIte]
      obtain ⟨k1, k2, k3⟩ := processContainer_inv st child
        (if pre = "" then name else pre ++ "." ++ name) h
      obtain ⟨r1, r2, r3⟩ := processContChildren_inv
        (Bridge.processContainer st child
          (if pre = "" then name else pre ++ "." ++ name)).1 rest pre k1
      refine ⟨r1, le_trans k2 r2, ?_⟩
      intro i hi
      rcases List.mem_append.mp hi with hi | hi
      · exact lt_of_lt_of_le (k3 i hi) r2
      · exact r3 i hi
    | false =>
      simp only [Bool.false_eq_true, if_false]
      obtain ⟨a1, a2eq, a3⟩ := addNode_inv st child
        (if pre = "" then name else pre ++ "." ++ name) h
      set A := Bridge.addNode st child
        (if pre = "" then name else pre ++ "." ++ name) with hA
      cases hnil : child.children.isNil with
      | true =>
        simp only [reduceIte]
        obtain ⟨r1, r2, r3⟩ := processContChildren_inv A.1 rest pre a1
        refine ⟨r1, by omega, ?_⟩
        intro i hi
        rcases List.mem_cons.mp hi with rfl | hi
        · rw [a2eq]; omega
        · exact r3 i hi
      | false =>
        simp only [Bool.false_eq_true, if_false]
        obtain ⟨c1, c2, c3⟩ := processContainer_inv A.1 child
          (if pre = "" then name else pre ++ "." ++ name) a1
        set RC := Bridge.processContainer A.1 child
          (if pre = "" then name else pre ++ "." ++ name) with hRC
        rcases hrc : RC.2 with _ | ⟨first, others⟩
        · simp only [hrc]
          obtain ⟨r1, r2, r3⟩ := processContChildren_inv RC.1 rest pre c1
          refine ⟨r1, by omega, ?_⟩
          intro i hi
          rcases List.mem_cons.mp hi with rfl | hi
          · rw [a2eq]; omega
          · exact r3 i hi
        · simp only [hrc]
          have hst2inv : BridgeInv (Bridge.BridgeState.mk RC.1.nodes
              (RC.1.connections ++ [⟨pyStr A.2, pyStr first, 1⟩] ++
                Bridge.chainConnections (first :: others)) RC.1.nodeCount) := by
            refine ⟨c1.1, ?_⟩
            intro e he
            rcases List.mem_append.mp he with he | he
            · rcases List.mem_append.mp he with he | he
              · exact c1.2 e he
              · rcases List.mem_singleton.mp he with rfl
                refine ⟨pyStr_mem_ids c1.1 (by rw [a2eq]; omega),
                  pyStr_mem_ids c1.1 (c3 first ?_)⟩
                rw [hrc]
                exact List.mem_cons_self _ _
            · obtain ⟨x, y, hx, hy, rfl⟩ := chainConnections_mem (first :: others) e he
              refine ⟨pyStr_mem_ids c1.1 (c3 x ?_), pyStr_mem_ids c1.1 (c3 y ?_)⟩
              · rw [hrc]; exact hx
              · rw [hrc]; exact hy
          obtain ⟨r1, r2, r3⟩ := processContChildren_inv _ rest pre hst2inv
          refine ⟨r1, ?_, ?_⟩
          · exact le_trans (show st.nodeCount ≤ RC.1.nodeCount from by omega) r2
          · intro i hi
            rcases List.mem_cons.mp hi with rfl | hi
            · rw [a2eq]
              exact lt_of_lt_of_le (show st.nodeCount < RC.1.nodeCount from by omega) r2
            · exact r3 i hi
end

/-- Shape of any SUCCESSFUL run of the `src/src/python` loop, with no
well-formedness assumption: node ids extend the accumulator by
`layer_i, layer_(i+1), …` in order, and every new connection's source is
the incoming previous id or an id of this range, its target an id of
this range. -/
theorem convertLayers_ok_shape (sd : List (String × Tensor)) :
    ∀ (layers : List Dict) (i : Nat) (prev : Option String)
      (nodes : List NetworkNode) (conns : List NetworkConnection)
      (r : List NetworkNode × List NetworkConnection),
      SrcPy.convertLayers sd layers i prev nodes conns = .ok r →
      r.1.map (fun n => n.id)
          = nodes.map (fun n => n.id) ++ (List.range' i layers.length).map layerId ∧
      ∀ e ∈ r.2, e ∈ conns ∨
        (((∃ p, prev = some p ∧ e.source = p) ∨
            ∃ j, i ≤ j ∧ j < i + layers.length ∧ e.source = layerId j) ∧
          ∃ j, i ≤ j ∧ j < i + layers.length ∧ e.target = layerId j)
  | [], i, prev, nodes, conns, r, h => by
    simp only [SrcPy.convertLayers] at h
    injection h with h2
    subst h2
    refine ⟨by simp, ?_⟩
    intro e he
    exact .inl he
  | d :: rest, i, prev, nodes, conns, r, h => by
    simp only [SrcPy.convertLayers] at h
    obtain ⟨L, hL, h⟩ := bind_eq_ok.mp h
    obtain ⟨P, hP, h⟩ := bind_eq_ok.mp h
    obtain ⟨tv, htv, h⟩ := bind_eq_ok.mp h
    obtain ⟨ts, hts, h⟩ := bind_eq_ok.mp h
    have main : ∀ (conns2 : List NetworkConnection),
        (∀ e ∈ conns2, e ∈ conns ∨
          (((∃ p, prev = some p ∧ e.source = p) ∨
              ∃ j, i ≤ j ∧ j < i + (d :: rest).length ∧ e.source = layerId j) ∧
            ∃ j, i ≤ j ∧ j < i + (d :: rest).length ∧ e.target = layerId j)) →
        SrcPy.convertLayers sd rest (i + 1) (some ("layer_" ++ pyStr i))
            (nodes ++ [⟨"layer_" ++ pyStr i, ts, P⟩]) conns2 = .ok r →
        r.1.map (fun n => n.id)
            = nodes.map (fun n => n.id)
              ++ (List.range' i (d :: rest).length).map layerId ∧
        ∀ e ∈ r.2, e ∈ conns ∨
          (((∃ p, prev = some p ∧ e.source = p) ∨
              ∃ j, i ≤ j ∧ j < i + (d :: rest).length ∧ e.source = layerId j) ∧
            ∃ j, i ≤ j ∧ j < i + (d :: rest).length ∧ e.target = layerId j) := by
      intro conns2 hc2 hrec
      obtain ⟨ih1, ih2⟩ := convertLayers_ok_shape sd rest (i + 1)
        (some ("layer_" ++ pyStr i)) (nodes ++ [⟨"layer_" ++ pyStr i, ts, P⟩])
        conns2 r hrec
      constructor
      · rw [ih1]
        simp only [List.map_append, List.map_cons, List.map_nil, List.length_cons,
          List.range'_succ, List.append_assoc]
        rfl
      · intro e he
        rcases ih2 e he with he2 | ⟨hsrc, j, hj1, hj2, hjt⟩
        · exact hc2 e he2
        · refine .inr ⟨?_, j, by omega, ?_, hjt⟩
          · rcases hsrc with ⟨p, hp, hep⟩ | ⟨j2, hj21, hj22, hej⟩
            · injection hp with hp2
              refine .inr ⟨i, le_rfl, ?_, ?_⟩
              · simp only [List.length_cons]
                omega
              · rw [hep, ← hp2]
                rfl
            · refine .inr ⟨j2, by omega, ?_, hej⟩
              simp only [List.length_cons]
              omega
          · simp only [List.length_cons]
            omega
    cases prev with
    | none =>
      simp only [exceptBind_ok, exceptPure] at h
      exact main conns (fun e he => .inl he) h
    | some p =>
      obtain ⟨nv, hnv, h⟩ := bind_eq_ok.mp h
      simp only [exceptPure] at h
      have hmem : ∀ wp : Dict, ∀ e ∈ conns ++ [⟨p, "layer_" ++ pyStr i, 1, wp⟩],
          e ∈ conns ∨
          (((∃ p2, some p = some p2 ∧ e.source = p2) ∨
              ∃ j, i ≤ j ∧ j < i + (d :: rest).length ∧ e.source = layerId j) ∧
            ∃ j, i ≤ j ∧ j < i + (d :: rest).length ∧ e.target = layerId j) := by
        intro wp e he
        rcases List.mem_append.mp he with he3 | he3
        · exact .inl he3
        · rcases List.mem_singleton.mp he3 with rfl
          refine .inr ⟨.inl ⟨p, rfl, rfl⟩, i, le_rfl, ?_, rfl⟩
          simp only [List.length_cons]
          omega
      rcases hsf : sdFind sd (nv.pyRepr ++ ".weight") with _ | t
      · rw [hsf] at h
        simp only [exceptBind_ok, exceptPure] at h
        exact main (conns ++ [⟨p, "layer_" ++ pyStr i, 1, []⟩]) (hmem []) h
      · rw [hsf] at h
        simp only [exceptPure] at h
        split at h
        · simp only [exceptBind_error] at h
          exact absurd h (by simp)
        · simp only [exceptBind_ok] at h
          exact main (conns ++ [⟨p, "layer_" ++ pyStr i, 1, SrcPy.srcWeightStats t⟩])
            (hmem (SrcPy.srcWeightStats t)) h

/-- Shape of any SUCCESSFUL run of the `python_service` descriptor loop,
with no well-formedness assumption (same reading as
`convertLayers_ok_shape`; the previous node is carried whole and the
edge's source is its id). -/
theorem importLoop_ok_shape (weights : List (String × Tensor)) :
    ∀ (layers : List Dict) (i : Nat) (prev : Option NetworkNode)
      (nodes : List NetworkNode) (conns : List NetworkConnection)
      (r : List NetworkNode × List NetworkConnection),
      PySvc.importLoop weights layers i prev nodes conns = .ok r →
      r.1.map (fun n => n.id)
          = nodes.map (fun n => n.id) ++ (List.range' i layers.length).map layerId ∧
      ∀ e ∈ r.2, e ∈ conns ∨
        (((∃ pn, prev = some pn ∧ e.source = pn.id) ∨
            ∃ j, i ≤ j ∧ j < i + layers.length ∧ e.source = layerId j) ∧
          ∃ j, i ≤ j ∧ j < i + layers.length ∧ e.target = layerId j)
  | [], i, prev, nodes, conns, r, h => by
    simp only [PySvc.importLoop] at h
    injection h with h2
    subst h2
    refine ⟨by simp, ?_⟩
    intro e he
    exact .inl he
  | d :: rest, i, prev, nodes, conns, r, h => by
    simp only [PySvc.importLoop] at h
    obtain ⟨tv, htv, h⟩ := bind_eq_ok.mp h
    obtain ⟨ts, hts, h⟩ := bind_eq_ok.mp h
    have main : ∀ (conns2 : List NetworkConnection),
        (∀ e ∈ conns2, e ∈ conns ∨
          (((∃ pn, prev = some pn ∧ e.source = pn.id) ∨
              ∃ j, i ≤ j ∧ j < i + (d :: rest).length ∧ e.source = layerId j) ∧
            ∃ j, i ≤ j ∧ j < i + (d :: rest).length ∧ e.target = layerId j)) →
        PySvc.importLoop weights rest (i + 1)
            (some ⟨"layer_" ++ pyStr i, ts, d⟩)
            (nodes ++ [⟨"layer_" ++ pyStr i, ts, d⟩]) conns2 = .ok r →
        r.1.map (fun n => n.id)
            = nodes.map (fun n => n.id)
              ++ (List.range' i (d :: rest).length).map layerId ∧
        ∀ e ∈ r.2, e ∈ conns ∨
          (((∃ pn, prev = some pn ∧ e.source = pn.id) ∨
              ∃ j, i ≤ j ∧ j < i + (d :: rest).length ∧ e.source = layerId j) ∧
            ∃ j, i ≤ j ∧ j < i + (d :: rest).length ∧ e.target = layerId j) := by
      intro conns2 hc2 hrec
      obtain ⟨ih1, ih2⟩ := importLoop_ok_shape weights rest (i + 1)
        (some ⟨"layer_" ++ pyStr i, ts, d⟩) (nodes ++ [⟨"layer_" ++ pyStr i, ts, d⟩])
        conns2 r hrec
      constructor
      · rw [ih1]
        simp only [List.map_append, List.map_cons, List.map_nil, List.length_cons,
          List.range'_succ, List.append_assoc]
        rfl
      · intro e he
        rcases ih2 e he with he2 | ⟨hsrc, j, hj1, hj2, hjt⟩
        · exact hc2 e he2
        · refine .inr ⟨?_, j, by omega, ?_, hjt⟩
          · rcases hsrc with ⟨pn, hp, hep⟩ | ⟨j2, hj21, hj22, hej⟩
            · injection hp with hp2
              refine .inr ⟨i, le_rfl, ?_, ?_⟩
              · simp only [List.length_cons]
                omega
              · rw [hep, ← hp2]
                rfl
            · refine .inr ⟨j2, by omega, ?_, hej⟩
              simp only [List.length_cons]
              omega
          · simp only [List.length_cons]
            omega
    cases prev with
    | none =>
      simp only [exceptBind_ok, exceptPure] at h
      exact main conns (fun e he => .inl he) h
    | some pn =>
      obtain ⟨nv, hnv, h⟩ := bind_eq_ok.mp h
      simp only [exceptBind_ok, exceptPure] at h
      refine main _ ?_ h
      intro e he
      rcases List.mem_append.mp he with he3 | he3
      · exact .inl he3
      · rcases List.mem_singleton.mp he3 with rfl
        refine .inr ⟨.inl ⟨pn, rfl, rfl⟩, i, le_rfl, ?_, rfl⟩
        simp only [List.length_cons]
        omega

/-- C6: in every network any of the four conversions produces — the
`python_service` live traversal, the bridge's `analyze_model`, and the
two descriptor-driven loops — the node ids are string renderings of a
counter assigned in visitation order (`layer_0, layer_1, …`, decimal
`0, 1, …` for the bridge), monotonically increasing and never reused,
hence pairwise distinct; and every connection's source and target id
occurs among the node ids. -/
theorem c6_ids_unique_and_referenced (m : PTModule) :
    (∀ net : NeuroscopeNetwork, (PySvcLive.convertPytorchModel m).1 = .ok net →
      net.nodes.map (fun n => n.id) = (List.range (moduleCount m)).map layerId ∧
      (net.nodes.map (fun n => n.id)).Nodup ∧
      ∀ e ∈ net.connections, e.source ∈ net.nodes.map (fun n => n.id) ∧
        e.target ∈ net.nodes.map (fun n => n.id)) ∧
    ((Bridge.analyzeModel m).nodes.map (fun n => n.id)
        = (List.range (Bridge.processContainer ⟨[], [], 0⟩ m "").1.nodeCount).map pyStr
      ∧ ((Bridge.analyzeModel m).nodes.map (fun n => n.id)).Nodup
      ∧ ∀ e ∈ (Bridge.analyzeModel m).connections,
          e.source ∈ (Bridge.analyzeModel m).nodes.map (fun n => n.id) ∧
          e.target ∈ (Bridge.analyzeModel m).nodes.map (fun n => n.id)) ∧
    (∀ (md : SrcPy.ModelData) (net : NeuroscopeNetwork),
      SrcPy.convertPytorchModel md = .ok net →
      net.nodes.map (fun n => n.id) = (List.range md.layers.length).map layerId ∧
      (net.nodes.map (fun n => n.id)).Nodup ∧
      ∀ e ∈ net.connections, e.source ∈ net.nodes.map (fun n => n.id) ∧
        e.target ∈ net.nodes.map (fun n => n.id)) ∧
    (∀ (layers : List Dict) (weights : List (String × Tensor))
        (net : NeuroscopeNetwork),
      PySvc.importPytorchModel layers weights = .ok net →
      net.nodes.map (fun n => n.id) = (List.range layers.length).map layerId ∧
      (net.nodes.map (fun n => n.id)).Nodup ∧
      ∀ e ∈ net.connections, e.source ∈ net.nodes.map (fun n => n.id) ∧
        e.target ∈ net.nodes.map (fun n => n.id)) := by
  have hdesc : ∀ (len : Nat) (ns : List NetworkNode) (cs : List NetworkConnection),
      ns.map (fun n => n.id) = (List.range' 0 len).map layerId →
      (∀ e ∈ cs, e ∈ ([] : List NetworkConnection) ∨
        (((∃ p, (none : Option String) = some p ∧ e.source = p) ∨
            ∃ j, 0 ≤ j ∧ j < 0 + len ∧ e.source = layerId j) ∧
          ∃ j, 0 ≤ j ∧ j < 0 + len ∧ e.target = layerId j)) →
      ns.map (fun n => n.id) = (List.range len).map layerId ∧
      (ns.map (fun n => n.id)).Nodup ∧
      ∀ e ∈ cs, e.source ∈ ns.map (fun n => n.id) ∧
        e.target ∈ ns.map (fun n => n.id) := by
    intro len ns cs hids hcs
    have hids' : ns.map (fun n => n.id) = (List.range len).map layerId := by
      rw [hids, List.range_eq_range']
    refine ⟨hids', ?_, ?_⟩
    · rw [hids']
      exact List.Nodup.map layerId_injective (List.nodup_range _)
    · intro e he
      rcases hcs e he with he2 | ⟨hsrc, j, -, hj2, hjt⟩
      · exact absurd he2 (List.not_mem_nil e)
      · rcases hsrc with ⟨p, hp, -⟩ | ⟨j2, -, hj22, hej⟩
        · exact absurd hp (by simp)
        · rw [hids', hej, hjt]
          exact ⟨List.mem_map_of_mem _ (List.mem_range.mpr (by omega)),
            List.mem_map_of_mem _ (List.mem_range.mpr (by omega))⟩
  obtain ⟨hinv, -, -⟩ := processContainer_inv ⟨[], [], 0⟩ m ""
    ⟨rfl, by intro e he; exact absurd he (List.not_mem_nil e)⟩
  have hbn : (Bridge.analyzeModel m).nodes
      = (Bridge.processContainer ⟨[], [], 0⟩ m "").1.nodes := rfl
  have hbc : (Bridge.analyzeModel m).connections
      = (Bridge.processContainer ⟨[], [], 0⟩ m "").1.connections := rfl
  have hbids : (Bridge.analyzeModel m).nodes.map (fun n => n.id)
      = (List.range (Bridge.processContainer ⟨[], [], 0⟩ m "").1.nodeCount).map pyStr := by
    rw [hbn]
    exact hinv.1
  refine ⟨?_, ⟨hbids, ?_, ?_⟩, ?_, ?_⟩
  · intro net hok
    cases hole : liveOK false m with
    | false =>
      rw [convertLive_err m hole] at hok
      exact absurd hok (by simp)
    | true =>
      rw [convertLive_spec m hole] at hok
      injection hok with hok2
      subst hok2
      have hids : (liveNodes m 0).map (fun n => n.id)
          = (List.range (moduleCount m)).map layerId := by
        rw [liveNodes_ids m 0, List.range_eq_range']
      refine ⟨hids, ?_, ?_⟩
      · rw [hids]
        exact List.Nodup.map layerId_injective (List.nodup_range _)
      · intro e he
        obtain ⟨a, b, hsa, htb, -, ha2, -, hb2⟩ := liveEdges_bounds m 0 e he
        rw [hids, hsa, htb]
        exact ⟨List.mem_map_of_mem _ (List.mem_range.mpr (by omega)),
          List.mem_map_of_mem _ (List.mem_range.mpr (by omega))⟩
  · rw [hbids]
    exact List.Nodup.map pyStr_injective (List.nodup_range _)
  · intro e he
    rw [hbc] at he
    obtain ⟨hs, ht⟩ := hinv.2 e he
    rw [hbn]
    exact ⟨hs, ht⟩
  · intro md net hok
    unfold SrcPy.convertPytorchModel at hok
    obtain ⟨r, hr, hmk⟩ := bind_eq_ok.mp hok
    obtain ⟨hids, hcs⟩ := convertLayers_ok_shape md.state_dict md.layers 0 none [] [] r hr
    have hnet : net = ⟨"ANN", r.1, r.2⟩ := by
      unfold mkSrcNetwork at hmk
      simp only [srcTypePattern, reduceIte] at hmk
      injection hmk with hx
      exact hx.symm
    subst hnet
    exact hdesc md.layers.length r.1 r.2 (by simpa using hids) hcs
  · intro layers weights net hok
    unfold PySvc.importPytorchModel at hok
    obtain ⟨r, hr, hmk⟩ := bind_eq_ok.mp hok
    obtain ⟨hids, hcs⟩ := importLoop_ok_shape weights layers 0 none [] [] r hr
    have hnet : net = ⟨"ANN", r.1, r.2⟩ := by
      injection hmk with hx
      exact hx.symm
    subst hnet
    refine hdesc layers.length r.1 r.2 (by simpa using hids) ?_
    intro e he
    rcases hcs e he with he2 | ⟨hsrc, j, hj1, hj2, hjt⟩
    · exact .inl he2
    · refine .inr ⟨?_, j, hj1, hj2, hjt⟩
      rcases hsrc with ⟨pn, hp, -⟩ | ⟨j2, hj21, hj22, hej⟩
      · exact absurd hp (by simp)
      · exact .inr ⟨j2, hj21, hj22, hej⟩

/-- A leaf root, a one-entry descriptor and its conversions, for the C6
witness. -/
def c6wLive : PTModule := .mk "Net" [("training", .vbool true)] [] none 0 none .nil

/-- The live conversion of `c6wLive`. -/
def c6wNetLive : NeuroscopeNetwork :=
  ⟨"ANN", [⟨"layer_0", "Net", [("type", .vstr "Net"),
    ("trainable_parameters", .vint 0), ("has_bias", .vbool false)]⟩], []⟩

/-- A one-entry descriptor for the C6 witness. -/
def c6wLayers : List Dict := [[("type", .vstr "Tanh"), ("name", .vstr "t")]]

/-- The `src/src/python` conversion of `c6wLayers`. -/
def c6wNetSrc : NeuroscopeNetwork :=
  ⟨"ANN", [⟨"layer_0", "Tanh", [("type", .vstr "Tanh"),
    ("trainable_parameters", .vint 0), ("activation_type", .vstr "Tanh")]⟩], []⟩

/-- The `python_service` descriptor conversion of `c6wLayers`. -/
def c6wNetSvc : NeuroscopeNetwork :=
  ⟨"ANN", [⟨"layer_0", "Tanh", [("type", .vstr "Tanh"), ("name", .vstr "t")]⟩], []⟩

/-- Witness for C6: the success hypotheses of its three conditional
conjuncts are discharged at concrete conversions. -/
theorem c6_witness :
    ((PySvcLive.convertPytorchModel c6wLive).1 = .ok c6wNetLive ∧
      c6wNetLive.nodes.map (fun n => n.id)
        = (List.range (moduleCount c6wLive)).map layerId ∧
      (c6wNetLive.nodes.map (fun n => n.id)).Nodup ∧
      ∀ e ∈ c6wNetLive.connections,
        e.source ∈ c6wNetLive.nodes.map (fun n => n.id) ∧
        e.target ∈ c6wNetLive.nodes.map (fun n => n.id)) ∧
    (SrcPy.convertPytorchModel ⟨c6wLayers, []⟩ = .ok c6wNetSrc ∧
      c6wNetSrc.nodes.map (fun n => n.id)
        = (List.range c6wLayers.length).map layerId ∧
      (c6wNetSrc.nodes.map (fun n => n.id)).Nodup ∧
      ∀ e ∈ c6wNetSrc.connections,
        e.source ∈ c6wNetSrc.nodes.map (fun n => n.id) ∧
        e.target ∈ c6wNetSrc.nodes.map (fun n => n.id)) ∧
    (PySvc.importPytorchModel c6wLayers [] = .ok c6wNetSvc ∧
      c6wNetSvc.nodes.map (fun n => n.id)
        = (List.range c6wLayers.length).map layerId ∧
      (c6wNetSvc.nodes.map (fun n => n.id)).Nodup ∧
      ∀ e ∈ c6wNetSvc.connections,
        e.source ∈ c6wNetSvc.nodes.map (fun n => n.id) ∧
        e.target ∈ c6wNetSvc.nodes.map (fun n => n.id)) :=
  ⟨⟨rfl, (c6_ids_unique_and_referenced c6wLive).1 c6wNetLive rfl⟩,
   ⟨rfl, (c6_ids_unique_and_referenced c6wLive).2.2.1 ⟨c6wLayers, []⟩ c6wNetSrc rfl⟩,
   ⟨rfl, (c6_ids_unique_and_referenced c6wLive).2.2.2 c6wLayers [] c6wNetSvc rfl⟩⟩

/-- A root container with two weightless activation children, for the C3
counterexample (live path). -/
def c3model : PTModule :=
  .mk "Net" [("training", .vbool true)] [] none 0 none
    (.cons "act1" (.mk "ReLU" [("inplace", .vbool false), ("training", .vbool true)]
        [] none 0 none .nil)
      (.cons "act2" (.mk "Tanh" [("training", .vbool true)] [] none 0 none .nil) .nil))

/-- A `Sequential` root with two leaf children, for the C3 counterexample
(bridge path). -/
def c3seq : PTModule :=
  .mk "Sequential" [("training", .vbool true)] [] none 0 none
    (.cons "0" (.mk "ReLU" [("inplace", .vbool false), ("training", .vbool true)]
        [] none 0 none .nil)
      (.cons "1" (.mk "Tanh" [("training", .vbool true)] [] none 0 none .nil) .nil))

/-- C3 counterexample.  Live path: a root container with two (weightless)
children yields three nodes but NO connections — `process_layer` emits an
edge to a child only when the child has a `weight` attribute, so neither
the claimed container-to-first-child edge nor any sibling chaining
occurs.  Bridge path: a `Sequential` root with two children is NOT
emitted as a node at all (only its two children are, ids `"0"`, `"1"` of
the three modules). -/
theorem c3_counterexample :
    (c3model.children.isNil = false ∧
      (PySvcLive.convertPytorchModel c3model).1.map
          (fun net => (net.nodes.length, net.connections)) = .ok (3, [])) ∧
    (c3seq.children.isNil = false ∧ moduleCount c3seq = 3 ∧
      (Bridge.analyzeModel c3seq).nodes.map (fun n => n.id) = ["0", "1"]) :=
  ⟨⟨rfl, rfl⟩, rfl, rfl, rfl⟩

/-- A root with a single child whose weight tensor has zero elements:
the live traversal reaches `np.max` over a zero-size array and raises. -/
def c3err : PTModule :=
  .mk "Net" [("training", .vbool true)] [] none 0 none
    (.cons "fc" (.mk "Linear"
        [("training", .vbool true), ("in_features", .vint 0),
         ("out_features", .vint 3)]
        [⟨0, true⟩] (some ⟨[], [3, 0]⟩) 0 none .nil) .nil)

/-- C3 amended: the live traversal of `python_service` is a depth-first
pre-order walk in which EVERY module — leaf or container — becomes
exactly one node (`moduleCount` many in total, ids assigned in visitation
order), and the connection list is exactly `liveEdges`: an edge runs from
a module to a child precisely when the child carries a `weight`
attribute (weighted by its mean absolute value); sibling children are
never chained to one another in this path.  This closed form holds
exactly on the exception-free domain: when any module below the root
carries a zero-size weight tensor, `np.max` raises and the conversion
returns numpy's zero-size `ValueError` instead of a network. -/
theorem c3_amended (m : PTModule) :
    (liveOK false m = true →
      (PySvcLive.convertPytorchModel m).1
          = .ok ⟨"ANN", liveNodes m 0, liveEdges m 0⟩ ∧
      (liveNodes m 0).length = moduleCount m) ∧
    (liveOK false m = false →
      (PySvcLive.convertPytorchModel m).1 = .error PySvcLive.zeroSizeMsg) := by
  constructor
  · intro h
    refine ⟨convertLive_spec m h, ?_⟩
    have hlen := congrArg (fun l => l.length) (liveNodes_ids m 0)
    simp only [List.length_map, List.length_range'] at hlen
    exact hlen
  · exact convertLive_err m

/-- Witness for C3 amended: both sides are discharged at concrete models —
a weightless two-leaf container (success, closed form) and a module with
a zero-element weight tensor (the zero-size `ValueError`). -/
theorem c3_amended_witness :
    (liveOK false c3model = true ∧
      ((PySvcLive.convertPytorchModel c3model).1
          = .ok ⟨"ANN", liveNodes c3model 0, liveEdges c3model 0⟩ ∧
        (liveNodes c3model 0).length = moduleCount c3model)) ∧
    (liveOK false c3err = false ∧
      (PySvcLive.convertPytorchModel c3err).1 = .error PySvcLive.zeroSizeMsg) :=
  ⟨⟨by decide, (c3_amended c3model).1 (by decide)⟩,
   ⟨by decide, (c3_amended c3err).2 (by decide)⟩⟩

/-! ### C2: the bridge's `Sequential` chaining, in closed form

The family of models for which the spec's Sequential-chaining sentence can
be repaired: a `Sequential` root whose children are custom (non-sequential)
containers, each holding a nonempty run of non-sequential leaf modules.
For these, `process_container` emits one node per child and per grandchild,
a block of consecutive edges inside each child (child → first grandchild,
then the grandchildren chained), and the top-level chain over the child
node ids — and no ordered (source, target) pair is ever repeated.  The
closed forms below are stated over `ℕ` ids and mapped through `str`. -/

/-- The number of direct children of each child module, in order. -/
def kidSizes : PTChildren → List Nat
  | .nil => []
  | .cons _ m rest => m.children.length :: kidSizes rest

/-- The node id assigned to each top-level child: each child block
occupies `size + 1` consecutive ids. -/
def c2Starts : Nat → List Nat → List Nat
  | _, [] => []
  | c, s :: rest => c :: c2Starts (c + s + 1) rest

/-- The within-block edges: for a child at id `c` with `s` grandchildren,
the consecutive pairs `(c, c+1), …, (c+s-1, c+s)`. -/
def c2Edges : Nat → List Nat → List (Nat × Nat)
  | _, [] => []
  | c, s :: rest => (List.range' c s).map (fun t => (t, t + 1)) ++ c2Edges (c + s + 1) rest

/-- The number of ids a run of blocks consumes. -/
def c2Total : List Nat → Nat
  | [] => 0
  | s :: rest => s + 1 + c2Total rest

/-- A `ℕ × ℕ` id pair rendered as the bridge's 1.0-weighted connection. -/
def natConn (p : Nat × Nat) : Bridge.BridgeConn := ⟨pyStr p.1, pyStr p.2, 1⟩

/-- All modules in the run are non-sequential leaves. -/
def LeafRun : PTChildren → Bool
  | .nil => true
  | .cons _ m rest => (!Bridge.isSeqContainer m && m.children.isNil) && LeafRun rest

/-- All modules in the run are custom (non-sequential) containers holding
a nonempty run of non-sequential leaves. -/
def GoodKids : PTChildren → Bool
  | .nil => true
  | .cons _ m rest =>
      (!Bridge.isSeqContainer m && !m.children.isNil && LeafRun m.children) && GoodKids rest

theorem not_seq_cls {m : PTModule} (h : Bridge.isSeqContainer m = false) :
    m.cls ≠ "Sequential" := by
  simp only [Bridge.isSeqContainer, Bool.or_eq_false_iff, decide_eq_false_iff_not] at h
  exact h.1.1

theorem processContainer_not_seq (st : Bridge.BridgeState) (m : PTModule)
    (pre : String) (h : m.cls ≠ "Sequential") :
    Bridge.processContainer st m pre = Bridge.processContChildren st m.children pre := by
  match m with
  | .mk c a p w hk o ch =>
    have h' : c ≠ "Sequential" := h
    simp only [Bridge.processContainer]
    rw [if_neg h']
    rfl

theorem processContainer_seq (st : Bridge.BridgeState) (a : Dict) (p : List PParam)
    (w : Option Tensor) (hk : Nat) (o : Option Tensor) (ch : PTChildren) (pre : String) :
    Bridge.processContainer st (.mk "Sequential" a p w hk o ch) pre
      = (⟨(Bridge.processContChildren st ch pre).1.nodes,
          (Bridge.processContChildren st ch pre).1.connections
            ++ Bridge.chainConnections (Bridge.processContChildren st ch pre).2,
          (Bridge.processContChildren st ch pre).1.nodeCount⟩,
         (Bridge.processContChildren st ch pre).2) := by
  simp only [Bridge.processContainer, if_true]

theorem chainConnections_range' : ∀ (s c : Nat),
    Bridge.chainConnections (List.range' c (s + 1))
      = (List.range' c s).map (fun t => natConn (t, t + 1))
  | 0, c => rfl
  | s + 1, c => by
    have ih := chainConnections_range' s (c + 1)
    simp only [List.range'_succ, Bridge.chainConnections, List.tail_cons] at ih ⊢
    simp only [List.zipWith_cons_cons, List.map_cons]
    exact congrArg (fun l => natConn (c, c + 1) :: l) ih

theorem leafRun_spec : ∀ (ch : PTChildren), LeafRun ch = true →
    ∀ (st : Bridge.BridgeState) (pre : String),
    (Bridge.processContChildren st ch pre).1.connections = st.connections ∧
    (Bridge.processContChildren st ch pre).1.nodeCount = st.nodeCount + ch.length ∧
    (Bridge.processContChildren st ch pre).2 = List.range' st.nodeCount ch.length
  | .nil, _, st, pre => ⟨rfl, rfl, rfl⟩
  | .cons name child rest, h, st, pre => by
    simp only [LeafRun, Bool.and_eq_true, Bool.not_eq_true'] at h
    obtain ⟨⟨hsc, hnil⟩, hrest⟩ := h
    simp only [Bridge.processContChildren, PTChildren.length]
    rw [hsc]
    simp only [Bool.false_eq_true, if_false]
    rw [hnil]
    simp only [reduceIte]
    set fn := (if pre = "" then name else pre ++ "." ++ name) with hfn
    obtain ⟨ih1, ih2, ih3⟩ := leafRun_spec rest hrest (Bridge.addNode st child fn).1 pre
    refine ⟨?_, ?_, ?_⟩
    · rw [ih1]
      rfl
    · rw [ih2]
      have ha : (Bridge.addNode st child fn).1.nodeCount = st.nodeCount + 1 := rfl
      rw [ha]
      omega
    · rw [ih3, List.range'_succ]
      rfl

theorem isNil_false_length {ch : PTChildren} (h : ch.isNil = false) : 1 ≤ ch.length := by
  match ch with
  | .nil => cases h
  | .cons _ _ rest => exact Nat.le_add_left 1 rest.length

theorem block_edges (s : Nat) (hs : 1 ≤ s) (n : Nat) :
    natConn (n, n + 1) :: Bridge.chainConnections (List.range' (n + 1) s)
      = ((List.range' n s).map (fun t => (t, t + 1))).map natConn := by
  obtain ⟨k, rfl⟩ : ∃ k, s = k + 1 := ⟨s - 1, by omega⟩
  rw [chainConnections_range' k (n + 1), List.range'_succ, List.map_cons, List.map_cons,
    List.map_map]
  rfl

theorem goodKid_step (st : Bridge.BridgeState) (name : String) (kid : PTModule)
    (rest : PTChildren) (pre : String)
    (hsc : Bridge.isSeqContainer kid = false) (hnn : kid.children.isNil = false)
    (hlr : LeafRun kid.children = true) :
    ∃ st2 : Bridge.BridgeState,
      (Bridge.processContChildren st (.cons name kid rest) pre).1
        = (Bridge.processContChildren st2 rest pre).1 ∧
      (Bridge.processContChildren st (.cons name kid rest) pre).2
        = st.nodeCount :: (Bridge.processContChildren st2 rest pre).2 ∧
      st2.connections = st.connections
        ++ ((List.range' st.nodeCount kid.children.length).map
              (fun t => (t, t + 1))).map natConn ∧
      st2.nodeCount = st.nodeCount + kid.children.length + 1 := by
  obtain ⟨k, hk⟩ : ∃ k, kid.children.length = k + 1 :=
    ⟨kid.children.length - 1, by have := isNil_false_length hnn; omega⟩
  simp only [Bridge.processContChildren]
  rw [hsc]
  simp only [Bool.false_eq_true, if_false]
  rw [hnn]
  simp only [Bool.false_eq_true, if_false]
  set fn := (if pre = "" then name else pre ++ "." ++ name) with hfn
  rw [processContainer_not_seq (Bridge.addNode st kid fn).1 kid fn (not_seq_cls hsc)]
  obtain ⟨l1, l2, l3⟩ := leafRun_spec kid.children hlr (Bridge.addNode st kid fn).1 fn
  rw [l3, hk, List.range'_succ (Bridge.addNode st kid fn).1.nodeCount k 1]
  refine ⟨_, rfl, rfl, ?_, ?_⟩
  · show (Bridge.processContChildren (Bridge.addNode st kid fn).1 kid.children fn).1.connections
        ++ [⟨pyStr (Bridge.addNode st kid fn).2,
             pyStr (Bridge.addNode st kid fn).1.nodeCount, 1⟩]
        ++ Bridge.chainConnections ((Bridge.addNode st kid fn).1.nodeCount
            :: List.range' ((Bridge.addNode st kid fn).1.nodeCount + 1) k)
      = st.connections
        ++ ((List.range' st.nodeCount (k + 1)).map (fun t => (t, t + 1))).map natConn
    rw [l1]
    rw [show (Bridge.addNode st kid fn).1.connections = st.connections from rfl,
      List.append_assoc]
    refine congrArg (fun l => st.connections ++ l) ?_
    show natConn (st.nodeCount, st.nodeCount + 1)
        :: Bridge.chainConnections (List.range' (st.nodeCount + 1) (k + 1)) = _
    exact block_edges (k + 1) (by omega) st.nodeCount
  · show (Bridge.processContChildren (Bridge.addNode st kid fn).1 kid.children fn).1.nodeCount
      = st.nodeCount + (k + 1) + 1
    rw [l2, hk]
    rw [show (Bridge.addNode st kid fn).1.nodeCount = st.nodeCount + 1 from rfl]
    omega

theorem goodKids_spec : ∀ (kids : PTChildren), GoodKids kids = true →
    ∀ (st : Bridge.BridgeState) (pre : String),
    (Bridge.processContChildren st kids pre).1.connections
      = st.connections ++ (c2Edges st.nodeCount (kidSizes kids)).map natConn ∧
    (Bridge.processContChildren st kids pre).1.nodeCount
      = st.nodeCount + c2Total (kidSizes kids) ∧
    (Bridge.processContChildren st kids pre).2 = c2Starts st.nodeCount (kidSizes kids)
  | .nil, _, st, pre => ⟨(List.append_nil _).symm, rfl, rfl⟩
  | .cons name kid rest, h, st, pre => by
    simp only [GoodKids, Bool.and_eq_true, Bool.not_eq_true'] at h
    obtain ⟨⟨⟨hsc, hnn⟩, hlr⟩, hrest⟩ := h
    obtain ⟨st2, heq1, heq2, hc, hn⟩ := goodKid_step st name kid rest pre hsc hnn hlr
    obtain ⟨ih1, ih2, ih3⟩ := goodKids_spec rest hrest st2 pre
    refine ⟨?_, ?_, ?_⟩
    · rw [heq1, ih1, hc, hn]
      simp only [kidSizes, c2Edges, List.map_append, List.append_assoc]
    · rw [heq1, ih2, hn]
      simp only [kidSizes, c2Total]
      omega
    · rw [heq2, ih3, hn]
      simp only [kidSizes, c2Starts]

theorem mem_zipWith_pair : ∀ (l1 l2 : List Nat) (e : Nat × Nat),
    e ∈ List.zipWith Prod.mk l1 l2 → e.1 ∈ l1 ∧ e.2 ∈ l2
  | [], _, e, he => by cases he
  | _ :: _, [], e, he => by cases he
  | a :: l1, b :: l2, e, he => by
    rw [List.zipWith_cons_cons] at he
    rcases List.mem_cons.mp he with rfl | he
    · exact ⟨List.mem_cons_self _ _, List.mem_cons_self _ _⟩
    · obtain ⟨h1, h2⟩ := mem_zipWith_pair l1 l2 e he
      exact ⟨List.mem_cons_of_mem _ h1, List.mem_cons_of_mem _ h2⟩

theorem c2Starts_mem : ∀ (sizes : List Nat) (c b : Nat), b ∈ c2Starts c sizes → c ≤ b
  | [], _, b, hb => by cases hb
  | s :: rest, c, b, hb => by
    simp only [c2Starts] at hb
    rcases List.mem_cons.mp hb with rfl | hb
    · exact le_rfl
    · exact le_trans (by omega) (c2Starts_mem rest (c + s + 1) b hb)

theorem c2Edges_mem : ∀ (sizes : List Nat) (c : Nat) (e : Nat × Nat),
    e ∈ c2Edges c sizes → c ≤ e.1 ∧ e.2 = e.1 + 1 ∧ e.1 < c + c2Total sizes
  | [], _, e, he => by cases he
  | s :: rest, c, e, he => by
    simp only [c2Edges, List.mem_append, List.mem_map] at he
    rcases he with ⟨t, ht, rfl⟩ | he
    · rw [List.mem_range'_1] at ht
      simp only [c2Total]
      exact ⟨ht.1, trivial, by omega⟩
    · obtain ⟨h1, h2, h3⟩ := c2Edges_mem rest (c + s + 1) e he
      simp only [c2Total]
      exact ⟨by omega, h2, by omega⟩

theorem c2Edges_nodup : ∀ (sizes : List Nat) (c : Nat), (c2Edges c sizes).Nodup
  | [], _ => List.nodup_nil
  | s :: rest, c => by
    simp only [c2Edges]
    refine List.Nodup.append ?_ (c2Edges_nodup rest (c + s + 1)) ?_
    · refine List.Nodup.map ?_ (List.nodup_range' _ _)
      intro x y hxy
      simp only [Prod.mk.injEq] at hxy
      exact hxy.1
    · intro e he1 he2
      obtain ⟨t, ht, rfl⟩ := List.mem_map.mp he1
      rw [List.mem_range'_1] at ht
      obtain ⟨h1, -, -⟩ := c2Edges_mem rest (c + s + 1) _ he2
      have h1' : c + s + 1 ≤ t := h1
      omega

theorem c2Chain_mem : ∀ (sizes : List Nat) (c : Nat), (∀ s ∈ sizes, 1 ≤ s) →
    ∀ e ∈ List.zipWith Prod.mk (c2Starts c sizes) (c2Starts c sizes).tail,
      c ≤ e.1 ∧ e.1 + 2 ≤ e.2
  | [], _, _, e, he => by cases he
  | s :: rest, c, hs, e, he => by
    simp only [c2Starts, List.tail_cons] at he
    rcases hS : c2Starts (c + s + 1) rest with _ | ⟨b, S'⟩
    · rw [hS] at he
      cases he
    · rw [hS, List.zipWith_cons_cons] at he
      rcases List.mem_cons.mp he with rfl | he
      · have hb : c + s + 1 ≤ b := c2Starts_mem rest (c + s + 1) b
          (by rw [hS]; exact List.mem_cons_self _ _)
        have hs1 : 1 ≤ s := hs s (List.mem_cons_self _ _)
        refine ⟨le_rfl, ?_⟩
        show c + 2 ≤ b
        omega
      · have he' : e ∈ List.zipWith Prod.mk (c2Starts (c + s + 1) rest)
            (c2Starts (c + s + 1) rest).tail := by
          rw [hS]
          exact he
        obtain ⟨h1, h2⟩ := c2Chain_mem rest (c + s + 1)
          (fun x hx => hs x (List.mem_cons_of_mem _ hx)) e he'
        exact ⟨by omega, h2⟩

theorem c2Chain_nodup : ∀ (sizes : List Nat) (c : Nat),
    (List.zipWith Prod.mk (c2Starts c sizes) (c2Starts c sizes).tail).Nodup
  | [], _ => List.nodup_nil
  | s :: rest, c => by
    simp only [c2Starts, List.tail_cons]
    rcases hS : c2Starts (c + s + 1) rest with _ | ⟨b, S'⟩
    · exact List.nodup_nil
    · rw [List.zipWith_cons_cons, List.nodup_cons]
      constructor
      · intro hmem
        obtain ⟨h1, -⟩ := mem_zipWith_pair (b :: S') S' (c, b) hmem
        have := c2Starts_mem rest (c + s + 1) c (by rw [hS]; exact h1)
        omega
      · have ih := c2Chain_nodup rest (c + s + 1)
        rw [hS] at ih
        exact ih

theorem c2Pairs_nodup (sizes : List Nat) (hs : ∀ s ∈ sizes, 1 ≤ s) (c : Nat) :
    (c2Edges c sizes
      ++ List.zipWith Prod.mk (c2Starts c sizes) (c2Starts c sizes).tail).Nodup := by
  refine List.Nodup.append (c2Edges_nodup sizes c) (c2Chain_nodup sizes c) ?_
  intro e he1 he2
  obtain ⟨-, h2, -⟩ := c2Edges_mem sizes c e he1
  obtain ⟨-, h4⟩ := c2Chain_mem sizes c hs e he2
  omega

theorem chainConnections_eq_map (ids : List Nat) :
    Bridge.chainConnections ids = (List.zipWith Prod.mk ids ids.tail).map natConn := by
  simp only [Bridge.chainConnections]
  rw [List.map_zipWith]
  rfl

theorem strPair_injective :
    Function.Injective (fun p : Nat × Nat => (pyStr p.1, pyStr p.2)) := by
  intro p q h
  obtain ⟨x, y⟩ := p
  obtain ⟨z, v⟩ := q
  simp only [Prod.mk.injEq] at h ⊢
  exact ⟨pyStr_injective h.1, pyStr_injective h.2⟩

theorem goodKids_sizes : ∀ (kids : PTChildren), GoodKids kids = true →
    ∀ s ∈ kidSizes kids, 1 ≤ s
  | .nil, _, s, hs => by cases hs
  | .cons name kid rest, h, s, hs => by
    simp only [GoodKids, Bool.and_eq_true, Bool.not_eq_true'] at h
    obtain ⟨⟨⟨hsc, hnn⟩, hlr⟩, hrest⟩ := h
    simp only [kidSizes] at hs
    rcases List.mem_cons.mp hs with rfl | hs
    · exact isNil_false_length hnn
    · exact goodKids_sizes rest hrest s hs

/-- A `Sequential` holding two leaves, nested inside `c2root`. -/
def c2inner : PTModule :=
  .mk "Sequential" [("training", .vbool true)] [] none 0 none
    (.cons "0" (.mk "ReLU" [("inplace", .vbool false), ("training", .vbool true)]
        [] none 0 none .nil)
      (.cons "1" (.mk "Tanh" [("training", .vbool true)] [] none 0 none .nil) .nil))

/-- A `Sequential` root whose first child is itself a `Sequential` with
nested children, for the C2 counterexample. -/
def c2root : PTModule :=
  .mk "Sequential" [("training", .vbool true)] [] none 0 none
    (.cons "block" c2inner
      (.cons "out" (.mk "ReLU" [("inplace", .vbool false), ("training", .vbool true)]
          [] none 0 none .nil) .nil))

/-- C2 counterexample: a `Sequential` root whose child is a nested
`Sequential` duplicates an edge.  The inner `Sequential` chains its two
leaves as `("0","1")`, and since a sequential child contributes its child
ids to the outer `container_nodes`, the outer `Sequential` chain emits
`("0","1")` a second time (plus `("1","2")`): the conversion produces two
edges with the same ordered (source, target) pair. -/
theorem c2_counterexample :
    (Bridge.analyzeModel c2root).connections.map (fun e => (e.source, e.target))
      = [("0", "1"), ("0", "1"), ("1", "2")] ∧
    ¬ ((Bridge.analyzeModel c2root).connections.map
        (fun e => (e.source, e.target))).Nodup := by
  have h : (Bridge.analyzeModel c2root).connections.map (fun e => (e.source, e.target))
      = [("0", "1"), ("0", "1"), ("1", "2")] := rfl
  refine ⟨h, ?_⟩
  rw [h]
  decide

/-- C2 amended: for a `Sequential` root whose children are custom
(non-sequential) containers each holding a nonempty run of non-sequential
leaves, `analyze_model` emits exactly one block of consecutive edges per
child — the child node to its first grandchild, then the grandchildren
chained pairwise — followed by the top-level chain over the child node
ids, and no ordered (source, target) pair is repeated.  (With a
pure-sequential child the duplicate of `c2_counterexample` arises
instead, since such a child is flattened rather than given a node.) -/
theorem c2_amended (a : Dict) (p : List PParam) (w : Option Tensor) (hk : Nat)
    (o : Option Tensor) (kids : PTChildren) (hg : GoodKids kids = true) :
    (Bridge.analyzeModel (.mk "Sequential" a p w hk o kids)).connections
      = (c2Edges 0 (kidSizes kids)
          ++ List.zipWith Prod.mk (c2Starts 0 (kidSizes kids))
              (c2Starts 0 (kidSizes kids)).tail).map natConn ∧
    ((Bridge.analyzeModel (.mk "Sequential" a p w hk o kids)).connections.map
        (fun e => (e.source, e.target))).Nodup := by
  obtain ⟨g1, g2, g3⟩ := goodKids_spec kids hg ⟨[], [], 0⟩ ""
  have g1' : (Bridge.processContChildren ⟨[], [], 0⟩ kids "").1.connections
      = [] ++ (c2Edges 0 (kidSizes kids)).map natConn := g1
  have g3' : (Bridge.processContChildren ⟨[], [], 0⟩ kids "").2
      = c2Starts 0 (kidSizes kids) := g3
  have hconn : (Bridge.analyzeModel (.mk "Sequential" a p w hk o kids)).connections
      = (Bridge.processContChildren ⟨[], [], 0⟩ kids "").1.connections
        ++ Bridge.chainConnections (Bridge.processContChildren ⟨[], [], 0⟩ kids "").2 := by
    show (Bridge.processContainer ⟨[], [], 0⟩
        (.mk "Sequential" a p w hk o kids) "").1.connections = _
    rw [processContainer_seq]
  rw [hconn, g1', g3', chainConnections_eq_map, List.nil_append, ← List.map_append]
  refine ⟨rfl, ?_⟩
  rw [List.map_map]
  exact List.Nodup.map strPair_injective
    (c2Pairs_nodup (kidSizes kids) (goodKids_sizes kids hg) 0)

/-- Two custom containers with 2 and 1 leaf children, witnessing the C2
amended family. -/
def c2wKids : PTChildren :=
  .cons "block1" (.mk "Encoder" [("training", .vbool true)] [] none 0 none
      (.cons "fc" (.mk "Linear" [("training", .vbool true), ("in_features", .vint 2),
          ("out_features", .vint 2)] [] none 0 none .nil)
        (.cons "act" (.mk "ReLU" [("inplace", .vbool false), ("training", .vbool true)]
            [] none 0 none .nil) .nil)))
    (.cons "block2" (.mk "Decoder" [("training", .vbool true)] [] none 0 none
        (.cons "fc" (.mk "Linear" [("training", .vbool true), ("in_features", .vint 2),
            ("out_features", .vint 1)] [] none 0 none .nil) .nil)) .nil)

/-- Witness for C2: the amended theorem applied at a concrete
`Sequential` root with two custom-container children. -/
theorem c2_amended_witness :
    GoodKids c2wKids = true ∧
    ((Bridge.analyzeModel (.mk "Sequential" [] [] none 0 none c2wKids)).connections
      = (c2Edges 0 (kidSizes c2wKids)
          ++ List.zipWith Prod.mk (c2Starts 0 (kidSizes c2wKids))
              (c2Starts 0 (kidSizes c2wKids)).tail).map natConn ∧
    ((Bridge.analyzeModel (.mk "Sequential" [] [] none 0 none c2wKids)).connections.map
        (fun e => (e.source, e.target))).Nodup) :=
  ⟨by decide, c2_amended [] [] none 0 none c2wKids (by decide)⟩

end Neuroscope
